import Mathlib

/-!
# Verification of the state-regulator pipeline

Shallow embedding of the event-log normalization, state-reduction and
constraint-projection pipeline of the `state-regulator` repository
(`state.ts` — the current revision containing the Normalizer — and
`constraints.ts`), together with proofs and refutations of the frozen
claims about it.

Modelling conventions:

* Instants are `Int` milliseconds since the Unix epoch.  An event's
  `timestampUtc` string is represented by its `Date.parse` result: `some t`
  for a parseable string, `none` for an unparseable one (JavaScript `NaN`).
  Synthesized events are created from an integral millisecond value via
  `new Date(t).toISOString()`, which `Date.parse` maps back to `t`, so they
  carry `some t` directly.
* JavaScript numbers used for fractional arithmetic (sleep pressure,
  wake-window utilization) are modelled as exact rationals `ℚ`.
* JavaScript truthiness of a `number | null` field (`if (x)`) is `truthy`:
  false for `null` and for `0`.
* `Array.prototype.sort` with the comparator
  `(a, b) => Date.parse(a.timestampUtc) - Date.parse(b.timestampUtc)` is
  modelled as a stable insertion sort under the relation `evLe`, where a
  `NaN` key compares as "equal" to everything (the comparator returns `NaN`,
  which the sort treats as 0).  For logs whose timestamps all parse this is
  exactly the (stable) JavaScript sort.
* The host civil-time service (`Intl.DateTimeFormat(...).formatToParts`) is
  an explicit function parameter `zoned : Int → Civil`; `Date.UTC` is
  implemented as pure proleptic-Gregorian arithmetic.
* The configuration record is passed explicitly.  The revision of
  `constraints.ts` that defines `feedIntervalMinMin` (used by
  `buildBaselineEvents`) is not among the provided sources; all results
  about the Normalizer are proved for every configuration value, so no
  concrete default is assumed.
-/

namespace StateRegulator

/-- The closed event-type variant from `types.ts`. -/
inductive EventType where
  | FirstAwake
  | NapStarted
  | NapEnded
  | MilkGiven
  | SolidsGiven
  | RoutineStarted
  | Asleep
deriving DecidableEq, Repr

/-- `CareEvent` from `types.ts`; `ts` is the `Date.parse` of `timestampUtc`
(`none` = unparseable). -/
structure CareEvent where
  id : String
  type : EventType
  ts : Option Int
  autoPredicted : Bool
deriving DecidableEq, Repr

/-- An `AutoSuppressionEntry` `{ type, timestampUtc }`. -/
structure SuppressionEntry where
  type : EventType
  ts : Option Int
deriving DecidableEq, Repr

/-- `MS_MIN = 60 * 1000`. -/
def msMin : Int := 60000

/-- JavaScript truthiness of a `number | null` value. -/
def truthy : Option Int → Bool
  | none => false
  | some v => v != 0

/-- `RegulationLevel` from `types.ts`. -/
inductive RegulationLevel where
  | low
  | medium
  | high
deriving DecidableEq, Repr

/-- `CoreState` from `types.ts`.  Durations are milliseconds; the sleep
pressure is an exact rational. -/
structure CoreState where
  lastWakeTime : Option Int
  lastNapStart : Option Int
  lastNapEnd : Option Int
  lastNapDuration : Option Int
  lastFeedTime : Option Int
  timeSinceLastFeed : Option Int
  estimatedSleepPressure : ℚ
  regulationLevel : RegulationLevel
  totalDaySleep : Int
deriving DecidableEq, Repr

/-- `initialCoreState` from `state.ts`. -/
def initialCoreState : CoreState :=
  { lastWakeTime := none
    lastNapStart := none
    lastNapEnd := none
    lastNapDuration := none
    lastFeedTime := none
    timeSinceLastFeed := none
    estimatedSleepPressure := 0
    regulationLevel := .medium
    totalDaySleep := 0 }

instance {α : Type _} {P : α → Prop} [DecidablePred P] (o : Option α) :
    Decidable (∃ m, o = some m ∧ P m) :=
  match o with
  | none => isFalse (by rintro ⟨m, h, _⟩; cases h)
  | some v => decidable_of_iff (P v) (by simp)

/-- `levelFromSignals` from `state.ts`:
high if pressure ≥ 0.8 or (feed-gap known and ≥ 180 min); low if
pressure ≤ 0.35 and (feed-gap ?? 0) < 120 min; otherwise medium. -/
def levelFromSignals (sleepPressure : ℚ) (timeSinceFeedMin : Option ℚ) :
    RegulationLevel :=
  if sleepPressure ≥ 4/5 ∨ (∃ m, timeSinceFeedMin = some m ∧ m ≥ 180) then
    .high
  else if sleepPressure ≤ 35/100 ∧ timeSinceFeedMin.getD 0 < 120 then
    .low
  else
    .medium

/-- `computeSleepPressure` from `state.ts`.  Note `if (!lastWakeTime)` is a
truthiness test: both `null` and a timestamp of exactly `0` yield pressure
`0`. -/
def computeSleepPressure (lastWakeTime : Option Int)
    (lastNapDurationMin : Option ℚ) (now : Int) : ℚ :=
  match lastWakeTime with
  | none => 0
  | some w =>
    if w = 0 then 0
    else
      let awakeMin : ℚ := max 0 (((now - w : Int) : ℚ) / (msMin : ℚ))
      let napPenalty : ℚ :=
        match lastNapDurationMin with
        | some d => if d < 45 then 3/20 else 0
        | none => 0
      min 1 (awakeMin / 150 + napPenalty)

/-- The per-event fold step of `recomputeCoreState` (`state.ts`), including
the guard that skips events whose timestamp is unparseable or after `now`.
The accumulator carries the in-progress `CoreState` fields plus the
`totalDaySleep` accumulator. -/
def stepEvent (now : Int) (acc : CoreState × Int) (e : CareEvent) :
    CoreState × Int :=
  match e.ts with
  | none => acc
  | some timestamp =>
    if timestamp > now then acc
    else
      let s := acc.1
      match e.type with
      | .FirstAwake =>
        ({ s with lastWakeTime := some timestamp, lastNapStart := none,
                  lastNapEnd := none, lastNapDuration := none }, acc.2)
      | .NapStarted => ({ s with lastNapStart := some timestamp }, acc.2)
      | .NapEnded =>
        if truthy s.lastNapStart then
          let start := s.lastNapStart.getD 0
          let duration := max 0 (timestamp - start)
          ({ s with lastNapEnd := some timestamp,
                    lastNapDuration := some duration,
                    lastWakeTime := some timestamp }, acc.2 + duration)
        else
          ({ s with lastNapEnd := some timestamp,
                    lastWakeTime := some timestamp }, acc.2)
      | .MilkGiven => ({ s with lastFeedTime := some timestamp }, acc.2)
      | .SolidsGiven => ({ s with lastFeedTime := some timestamp }, acc.2)
      | .Asleep => ({ s with lastNapStart := some timestamp }, acc.2)
      | .RoutineStarted => acc

/-- The post-fold derivations of `recomputeCoreState` (`state.ts`): total day
sleep, feed gap, sleep pressure and regulation level.  The `x ? e : null`
patterns are truthiness tests. -/
def finalizeCore (acc : CoreState × Int) (now : Int) : CoreState :=
  let s := acc.1
  let timeSinceLastFeed : Option Int :=
    if truthy s.lastFeedTime then some (max 0 (now - s.lastFeedTime.getD 0))
    else none
  let lastNapDurationMin : Option ℚ :=
    if truthy s.lastNapDuration then some ((s.lastNapDuration.getD 0 : ℚ) / (msMin : ℚ))
    else none
  let pressure := computeSleepPressure s.lastWakeTime lastNapDurationMin now
  let timeSinceFeedMin : Option ℚ :=
    if truthy timeSinceLastFeed then some ((timeSinceLastFeed.getD 0 : ℚ) / (msMin : ℚ))
    else none
  { s with totalDaySleep := acc.2
           timeSinceLastFeed := timeSinceLastFeed
           estimatedSleepPressure := pressure
           regulationLevel := levelFromSignals pressure timeSinceFeedMin }

/-- `recomputeCoreState` from `state.ts`: fold the log in source order,
skipping events whose timestamp is unparseable or after `now`, then derive
the summary fields. -/
def recomputeCoreState (events : List CareEvent) (now : Int) : CoreState :=
  finalizeCore (events.foldl (stepEvent now) (initialCoreState, 0)) now

/-- An event survives the reducer's defensive guard iff its timestamp parses
and is not after `now`. -/
def validAt (now : Int) (e : CareEvent) : Bool :=
  match e.ts with
  | none => false
  | some t => t ≤ now

/-! ## The timestamp sort

`[...eventLog].sort((a, b) => Date.parse(a.timestampUtc) - Date.parse(b.timestampUtc))`
is a stable sort whose comparator returns `NaN` (treated as 0, i.e.
"equal") when either timestamp is unparseable. -/

/-- The sort comparator: `a` may stay before `b`.  Vacuously true whenever
either timestamp is unparseable (the JavaScript comparator returns `NaN`,
which the sort treats as "equal"). -/
def evLe (a b : CareEvent) : Prop :=
  ∀ x y, a.ts = some x → b.ts = some y → x ≤ y

/-- Boolean form of the comparator. -/
def evLeB (a b : CareEvent) : Bool :=
  match a.ts, b.ts with
  | some x, some y => decide (x ≤ y)
  | _, _ => true

instance : DecidableRel evLe := fun a b =>
  decidable_of_iff (evLeB a b = true)
    (by unfold evLeB evLe; cases a.ts <;> cases b.ts <;> simp)

/-- The event-log sort, modelled as a stable insertion sort under `evLe`. -/
def sortEvents (l : List CareEvent) : List CareEvent :=
  l.insertionSort evLe

/-! ## Civil-time arithmetic

`Date.UTC` is pure proleptic-Gregorian arithmetic; the zone lookup
(`Intl.DateTimeFormat(...{ timeZone }).formatToParts`) is an explicit
function parameter `zoned : Int → Civil`. -/

/-- The civil fields `{year, month, day, hour, minute}` produced by
`getZonedParts` (month is 1-based, as formatted). -/
structure Civil where
  year : Int
  month : Int
  day : Int
  hour : Int
  minute : Int
deriving DecidableEq, Repr

/-- Days from the epoch of a civil date with month already normalized to
1..12 (standard proleptic-Gregorian conversion, as performed by
`Date.UTC`). -/
def daysFromCivil (y m d : Int) : Int :=
  let y' := y - (if m ≤ 2 then 1 else 0)
  let era := (if 0 ≤ y' then y' else y' - 399).fdiv 400
  let yoe := y' - era * 400
  let doy := (153 * (m + (if m > 2 then -3 else 9)) + 2).fdiv 5 + d - 1
  let doe := yoe * 365 + yoe.fdiv 4 - yoe.fdiv 100 + doy
  era * 146097 + doe - 719468

/-- `Date.UTC(year, monthIndex, day, hour, minute)` in milliseconds, with
JavaScript's month-overflow normalization (`monthIndex` is 0-based). -/
def dateUTC (year monthIndex day hour minute : Int) : Int :=
  let ym := year + monthIndex.fdiv 12
  let mn := monthIndex - 12 * monthIndex.fdiv 12
  (daysFromCivil ym (mn + 1) day) * 86400000 + hour * 3600000 + minute * 60000

/-- `Date.UTC` applied to a `Civil` record, as done after `getZonedParts`
(`Date.UTC(parts.year, parts.month - 1, parts.day, parts.hour, parts.minute)`). -/
def dateUTCOfCivil (c : Civil) : Int :=
  dateUTC c.year (c.month - 1) c.day c.hour c.minute

/-- `getTimeZoneOffsetMs` from `state.ts`. -/
def getTimeZoneOffsetMs (zoned : Int → Civil) (utcMs : Int) : Int :=
  utcMs - dateUTCOfCivil (zoned utcMs)

/-- `getUtcMsFromZoned` from `state.ts`. -/
def getUtcMsFromZoned (zoned : Int → Civil) (c : Civil) : Int :=
  let tentative := dateUTCOfCivil c
  tentative + getTimeZoneOffsetMs zoned tentative

/-- `DAY_START_HOUR = 7`. -/
def dayStartHour : Int := 7

/-- `getDayStartUtc` from `state.ts`: the most recent 07:00 civil boundary at
or before `utcNow`, computed through the ambient zone service `zoned`
(`resolveTimeZone()` reads the host's zone; it is the explicit `zoned`
parameter here). -/
def getDayStartUtc (zoned : Int → Civil) (utcNow : Int) : Int :=
  let parts := zoned utcNow
  let todayStart := getUtcMsFromZoned zoned
    ⟨parts.year, parts.month, parts.day, dayStartHour, 0⟩
  if todayStart > utcNow then todayStart - 24 * 60 * 60 * 1000 else todayStart

/-- Civil-from-days (standard proleptic-Gregorian inverse), used to build
concrete zone services for the purity analysis. -/
def civilFromDays (z0 : Int) : Int × Int × Int :=
  let z := z0 + 719468
  let era := (if 0 ≤ z then z else z - 146096).fdiv 146097
  let doe := z - era * 146097
  let yoe := (doe - doe.fdiv 1460 + doe.fdiv 36524 - doe.fdiv 146096).fdiv 365
  let y := yoe + era * 400
  let doy := doe - (365 * yoe + yoe.fdiv 4 - yoe.fdiv 100)
  let mp := (5 * doy + 2).fdiv 153
  let d := doy - (153 * mp + 2).fdiv 5 + 1
  let m := mp + (if mp < 10 then 3 else -9)
  (y + (if m ≤ 2 then 1 else 0), m, d)

/-- The civil fields of a UTC instant in the UTC zone itself. -/
def civilOfUtc (ms : Int) : Civil :=
  let days := ms.fdiv 86400000
  let rem := ms - days * 86400000
  let ymd := civilFromDays days
  ⟨ymd.1, ymd.2.1, ymd.2.2, rem.fdiv 3600000,
    (rem - (rem.fdiv 3600000) * 3600000).fdiv 60000⟩

/-- A host in the UTC zone: the zone service reports UTC civil fields. -/
def zonedUTC : Int → Civil := civilOfUtc

/-- A host in a fixed UTC+1 zone: civil fields run one hour ahead. -/
def zonedPlusOne : Int → Civil := fun ms => civilOfUtc (ms + 3600000)

/-! ## The Normalizer (`state.ts`) -/

/-- `BASELINE_TOLERANCE_MIN * MS_MIN`: the 20-minute duplicate/suppression
tolerance in milliseconds. -/
def tolMs : Int := 20 * msMin

/-- `hasMatchingEvent` from `state.ts`: some event of the same type whose
parseable timestamp is within the tolerance of `timestamp`. -/
def hasMatchingEvent (events : List CareEvent) (ty : EventType)
    (timestamp : Int) : Bool :=
  events.any fun e =>
    if e.type ≠ ty then false
    else
      match e.ts with
      | none => false
      | some eventTime => |eventTime - timestamp| ≤ tolMs

/-- `isSuppressedAuto` from `state.ts`: some suppression entry of the same
type whose parseable timestamp is within the tolerance of `timestamp`. -/
def isSuppressedAuto (suppressed : List SuppressionEntry) (ty : EventType)
    (timestamp : Int) : Bool :=
  suppressed.any fun entry =>
    if entry.type ≠ ty then false
    else
      match entry.ts with
      | none => false
      | some entryTime => |entryTime - timestamp| ≤ tolMs

/-- `isCoreEvent` from `state.ts`. -/
def isCoreEvent (e : CareEvent) : Bool :=
  e.type ≠ EventType.RoutineStarted

/-- The "real event" filter of the horizon computation: non-auto-predicted
core events. -/
def realFilter (e : CareEvent) : Bool :=
  !e.autoPredicted && isCoreEvent e

/-- `Math.max` over the parsed timestamps of a list of events (`NaN`
poisons the maximum, yielding `none`). -/
def maxParse : List CareEvent → Option Int
  | [] => none
  | [e] => e.ts
  | e :: rest =>
    match e.ts, maxParse rest with
    | some t, some m => some (max t m)
    | _, _ => none

/-- The horizon of `normalizeEventLog` (`state.ts` lines 322-328): the
`Math.max` of the parsed timestamps of the last three real events, or `now`
if there are none. -/
def horizonOf (withFirstAwake : List CareEvent) (now : Int) : Option Int :=
  let realEvents := withFirstAwake.filter realFilter
  let lastThreeReal := realEvents.drop (realEvents.length - 3)
  if lastThreeReal.isEmpty then some now else maxParse lastThreeReal

/-- The configuration record (`ConstraintConfig` in `types.ts`), extended
with `feedIntervalMinMin`, which `buildBaselineEvents` reads from
`defaultConfig` but whose defining revision of `constraints.ts` is not among
the provided sources; every result is proved for arbitrary values. -/
structure ConstraintConfig where
  minWakeWindowMin : Int
  maxWakeWindowMin : Int
  shortenWakeByMinIfShortNap : Int
  shortNapThresholdMin : Int
  lateNapHour : Int
  bedtimeLatestHour : Int
  bedtimeLatestMinute : Int
  bedtimeEarlierByMinIfLateNap : Int
  routineLatencyMin : Int
  setupLatencyMin : Int
  nextNapCapMinIfLateNap : Int
  feedIntervalMinMin : Int
  feedIntervalMaxMin : Int
  expectedNapDurationMin : Int
deriving DecidableEq, Repr

/-- The synthesized feed event `{ id: auto-feed-t, type: MilkGiven,
timestampUtc: ISO(t), autoPredicted: true }`. -/
def mkAutoFeed (t : Int) : CareEvent :=
  ⟨"auto-feed-" ++ toString t, .MilkGiven, some t, true⟩

/-- The synthesized nap-start event. -/
def mkAutoNapStart (t : Int) : CareEvent :=
  ⟨"auto-nap-start-" ++ toString t, .NapStarted, some t, true⟩

/-- The synthesized nap-end event. -/
def mkAutoNapEnd (t : Int) : CareEvent :=
  ⟨"auto-nap-end-" ++ toString t, .NapEnded, some t, true⟩

/-- `x < horizon` where the horizon may be `NaN` (`none`): any comparison
with `NaN` is false. -/
def ltHorizon (x : Int) : Option Int → Bool
  | none => false
  | some h => x < h

/-- `x ≤ horizon` with a possibly-`NaN` horizon. -/
def leHorizon (x : Int) : Option Int → Bool
  | none => false
  | some h => x ≤ h

/-- The `while (wakeStart < horizonUtc && cycle < maxCycles)` loop of
`buildBaselineEvents` (`state.ts`), with the remaining cycle budget as
structural fuel. -/
def buildBaselineLoop (cfg : ConstraintConfig) (horizonUtc : Option Int) :
    Nat → Int → List CareEvent
  | 0, _ => []
  | fuel + 1, wakeStart =>
    if ltHorizon wakeStart horizonUtc then
      let feedTime := wakeStart + cfg.feedIntervalMinMin * msMin
      let feedEvents :=
        if leHorizon feedTime horizonUtc then [mkAutoFeed feedTime] else []
      let napStart := wakeStart + cfg.minWakeWindowMin * msMin
      if leHorizon napStart horizonUtc then
        let napEnd := napStart + cfg.expectedNapDurationMin * msMin
        if leHorizon napEnd horizonUtc then
          feedEvents ++ [mkAutoNapStart napStart, mkAutoNapEnd napEnd] ++
            buildBaselineLoop cfg horizonUtc fuel napEnd
        else feedEvents ++ [mkAutoNapStart napStart]
      else feedEvents
    else []

/-- `buildBaselineEvents` from `state.ts`: up to `maxCycles = 8` baseline
cycles from the first-awake instant. -/
def buildBaselineEvents (cfg : ConstraintConfig) (firstWakeUtc : Int)
    (horizonUtc : Option Int) : List CareEvent :=
  buildBaselineLoop cfg horizonUtc 8 firstWakeUtc

/-- The candidate-merging `forEach` of `normalizeEventLog`: skip a candidate
whose timestamp is unparseable, suppressed, or already matched; otherwise
push it. -/
def mergeBaseline (sup : List SuppressionEntry) (acc : List CareEvent) :
    List CareEvent → List CareEvent
  | [] => acc
  | c :: cs =>
    match c.ts with
    | none => mergeBaseline sup acc cs
    | some t =>
      if isSuppressedAuto sup c.type t then mergeBaseline sup acc cs
      else if hasMatchingEvent acc c.type t then mergeBaseline sup acc cs
      else mergeBaseline sup (acc ++ [c]) cs

/-- Is this a (possibly auto-predicted) `FirstAwake` event? -/
def isFA (e : CareEvent) : Bool :=
  e.type = EventType.FirstAwake

/-- Is this a real (non-auto-predicted) `FirstAwake` event? -/
def isRealFA (e : CareEvent) : Bool :=
  isFA e && !e.autoPredicted

/-- Steps 1-2 of the Normalizer: sort ascending, and if a real `FirstAwake`
exists drop every auto-predicted `FirstAwake`. -/
def cleanedOf (eventLog : List CareEvent) : List CareEvent :=
  let ordered := sortEvents eventLog
  let hasFirstAwake := ordered.any isRealFA
  ordered.filter fun e => !(isFA e && e.autoPredicted && hasFirstAwake)

/-- The auto-predicted `FirstAwake` synthesized at the operational day
start. -/
def mkAutoFirstAwake (t : Int) : CareEvent :=
  ⟨"auto-first-awake-" ++ toString t, .FirstAwake, some t, true⟩

/-- Step 3 of the Normalizer: if no `FirstAwake` of any kind remains,
synthesize one at the start of the current operational day (which consults
the ambient zone service). -/
def withFirstAwakeOf (zoned : Int → Civil) (eventLog : List CareEvent)
    (now : Int) : List CareEvent :=
  let cleaned := cleanedOf eventLog
  if cleaned.any isFA then cleaned
  else cleaned ++ [mkAutoFirstAwake (getDayStartUtc zoned now)]

/-- `normalizeEventLog` from `state.ts`.  `zoned` is the ambient host
zone service consulted by `getDayStartUtc`; `cfg` supplies the
`defaultConfig` constants read by `buildBaselineEvents`. -/
def normalizeEventLog (zoned : Int → Civil) (cfg : ConstraintConfig)
    (eventLog : List CareEvent) (now : Int)
    (sup : List SuppressionEntry) : List CareEvent :=
  let withFirstAwake := withFirstAwakeOf zoned eventLog now
  let horizonUtc := horizonOf withFirstAwake now
  match withFirstAwake.find? isFA with
  | none => sortEvents withFirstAwake
  | some firstWake =>
    match firstWake.ts with
    | none => sortEvents withFirstAwake
    | some firstWakeUtc =>
      let baselineEvents := buildBaselineEvents cfg firstWakeUtc horizonUtc
      sortEvents (mergeBaseline sup withFirstAwake baselineEvents)

/-- `AppState` from `types.ts`: the derived core state plus the event log
and the suppression list. -/
structure AppState where
  core : CoreState
  eventLog : List CareEvent
  autoSuppressed : List SuppressionEntry
deriving DecidableEq, Repr

/-- `applyEvent` from `state.ts`: append the event, re-normalize, re-reduce;
the suppression list is passed through. -/
def applyEvent (zoned : Int → Civil) (cfg : ConstraintConfig)
    (state : AppState) (event : CareEvent) (now : Int) : AppState :=
  let eventLog :=
    normalizeEventLog zoned cfg (state.eventLog ++ [event]) now
      state.autoSuppressed
  let core := recomputeCoreState eventLog now
  { core := core, eventLog := eventLog, autoSuppressed := state.autoSuppressed }

/-- `rebuildFromLog` from `state.ts`. -/
def rebuildFromLog (zoned : Int → Civil) (cfg : ConstraintConfig)
    (eventLog : List CareEvent) (now : Int)
    (autoSuppressed : List SuppressionEntry) : AppState :=
  let normalized := normalizeEventLog zoned cfg eventLog now autoSuppressed
  let core := recomputeCoreState normalized now
  { core := core, eventLog := normalized, autoSuppressed := autoSuppressed }

/-! ## The Constraint / Output Projector (`constraints.ts`) -/

/-- `minutesFromMs`: `Math.round(ms / MS_MIN)` (round half toward +∞),
computed as the integer floor of `(ms + MS_MIN/2) / MS_MIN`. -/
def minutesFromMs (ms : Int) : Int :=
  (2 * ms + msMin).fdiv (2 * msMin)

/-- `addMinutes`. -/
def addMinutes (time minutes : Int) : Int :=
  time + minutes * msMin

/-- `dayBoundUtc` from `constraints.ts`: the instant of civil `hour:minute`
on the civil day containing `sourceUtc`. -/
def dayBoundUtc (zoned : Int → Civil) (sourceUtc hour minute : Int) : Int :=
  let parts := zoned sourceUtc
  getUtcMsFromZoned zoned ⟨parts.year, parts.month, parts.day, hour, minute⟩

/-- Sleep-pressure trend direction. -/
inductive Trend where
  | up
  | down
deriving DecidableEq, Repr

/-- Regulation-risk tier of the pressure indicator. -/
inductive RiskTier where
  | low
  | rising
  | high
deriving DecidableEq, Repr

/-- Shift-rule status. -/
inductive ShiftStatus where
  | applied
  | pending
deriving DecidableEq, Repr

/-- An allowed activity with its expiry. -/
structure ActivityAllowed where
  label : String
  expiresAt : Option Int
deriving DecidableEq, Repr

/-- A suppressed activity with its reason. -/
structure ActivitySuppressed where
  label : String
  reason : String
deriving DecidableEq, Repr

/-- A shift-rule diagnostic line. -/
structure ShiftEntry where
  delta : String
  status : ShiftStatus
deriving DecidableEq, Repr

/-- `OutputModel` from `types.ts`.  Formatted strings are produced through
the explicit `fmt` parameter of `computeOutputs` (the `Intl` time
formatter). -/
structure OutputModel where
  stateSummary : List String
  nextWindow : Option String
  nextHardStop : Option String
  isAsleep : Bool
  nextWindowStartUtc : Option Int
  nextWindowEndUtc : Option Int
  nextHardStopUtc : Option Int
  wakeWindowRemainingMin : Option Int
  expectedWakeUtc : Option Int
  activityAllowed : List ActivityAllowed
  activitySuppressed : List ActivitySuppressed
  windowAllowed : List String
  windowSuppressed : List String
  shiftPreview : List ShiftEntry
  wakeUtilization : Option ℚ
  sleepPressureTrend : Trend
  regulationRisk : RiskTier
deriving DecidableEq, Repr

/-- The intermediate values computed by the awake (`state.lastWakeTime`
truthy) branch of `computeOutputs`, before the asleep override. -/
structure AwakeBranch where
  shorten : Bool
  minWake : Int
  maxWake : Int
  startWindow : Int
  endWindow : Int
  lateNap : Bool
  bedtimeLatest : Int
  routineLatest : Int
  awakeMin : Int
deriving DecidableEq, Repr

/-- The computations at the head of the awake branch of `computeOutputs`
(`constraints.ts` lines 110-150). -/
def awakeBranchOf (zoned : Int → Civil) (state : CoreState) (now : Int)
    (cfg : ConstraintConfig) (lastWake : Int) : AwakeBranch :=
  let lastNapDurationMin : Option ℚ :=
    if truthy state.lastNapDuration
    then some ((state.lastNapDuration.getD 0 : ℚ) / (msMin : ℚ))
    else none
  let shorten :=
    match lastNapDurationMin with
    | some d => decide (d < (cfg.shortNapThresholdMin : ℚ))
    | none => false
  let minWake := cfg.minWakeWindowMin -
    (if shorten then cfg.shortenWakeByMinIfShortNap else 0)
  let maxWake := cfg.maxWakeWindowMin -
    (if shorten then cfg.shortenWakeByMinIfShortNap else 0)
  let lateNap :=
    match state.lastNapEnd with
    | none => false
    | some e => decide ((zoned e).hour ≥ cfg.lateNapHour)
  let bedtimeLatest0 :=
    dayBoundUtc zoned now cfg.bedtimeLatestHour cfg.bedtimeLatestMinute
  let bedtimeLatest :=
    if lateNap then addMinutes bedtimeLatest0 (-cfg.bedtimeEarlierByMinIfLateNap)
    else bedtimeLatest0
  { shorten := shorten
    minWake := minWake
    maxWake := maxWake
    startWindow := addMinutes lastWake minWake
    endWindow := addMinutes lastWake maxWake
    lateNap := lateNap
    bedtimeLatest := bedtimeLatest
    routineLatest := addMinutes bedtimeLatest (-(cfg.routineLatencyMin + cfg.setupLatencyMin))
    awakeMin := minutesFromMs (now - lastWake) }

/-- The window/activity category lists of the awake branch.  The
`if (currentlyAsleep) {...} else if ...` chain first clears the lists (when
asleep) or fills a tier; the subsequent stand-alone
`if (awakeMin > maxWake)` override then replaces the contents
unconditionally — including while asleep (`constraints.ts` lines
160-228). -/
def awakeCategories (asleep : Bool) (b : AwakeBranch) :
    List String × List String × List ActivityAllowed × List ActivitySuppressed :=
  let tiers :
      List String × List String × List ActivityAllowed × List ActivitySuppressed :=
    if asleep then ([], [], [], [])
    else if (b.awakeMin : ℚ) < (b.minWake : ℚ) * (6/10) then
      (["Regulation / low stimulation", "Outdoor light", "Routine reset"],
       ["High stimulation", "New novel activities"],
       [⟨"Low-stim movement", some b.endWindow⟩,
        ⟨"Quiet bonding", some b.endWindow⟩,
        ⟨"Feeding window prep", some b.endWindow⟩],
       [⟨"High stimulation", "wake window still early"⟩,
        ⟨"New novel activities", "wake window still early"⟩])
    else if (b.awakeMin : ℚ) < (b.maxWake : ℚ) * (9/10) then
      (["Regulation / low stimulation", "Outdoor light", "Routine reset"],
       ["High stimulation", "New novel activities"],
       [⟨"Active play", some b.endWindow⟩,
        ⟨"Outdoor light", some b.endWindow⟩,
        ⟨"Routine reset", some b.endWindow⟩],
       [⟨"High stimulation", "wake window mid-cycle"⟩,
        ⟨"New novel activities", "wake window mid-cycle"⟩])
    else
      (["Regulation / low stimulation", "Routine reset"],
       ["High stimulation", "New novel activities", "Outdoor light"],
       [⟨"Wind-down", some b.endWindow⟩,
        ⟨"Low-light calm", some b.endWindow⟩,
        ⟨"Routine start", some b.endWindow⟩],
       [⟨"High stimulation", "wake window near cap"⟩,
        ⟨"New novel activities", "wake window near cap"⟩,
        ⟨"Outdoor light", "wake window near cap"⟩])
  if b.awakeMin > b.maxWake then
    (["Regulation / low stimulation"],
     ["High stimulation", "New novel activities", "Outdoor light"],
     [⟨"Minimal stimulation", some b.endWindow⟩,
      ⟨"Reduce novelty", some b.endWindow⟩,
      ⟨"Bridge to sleep", some b.endWindow⟩],
     [⟨"High stimulation", "wake window exceeded"⟩,
      ⟨"New novel activities", "wake window exceeded"⟩,
      ⟨"Outdoor light", "wake window exceeded"⟩])
  else tiers

/-- The shift-rule diagnostics of the awake branch (`constraints.ts` lines
230-249). -/
def awakeShifts (cfg : ConstraintConfig) (b : AwakeBranch) : List ShiftEntry :=
  [⟨"Nap <" ++ toString cfg.shortNapThresholdMin ++
      " min → next wake window −" ++
      toString cfg.shortenWakeByMinIfShortNap ++ " min",
    if b.shorten then .applied else .pending⟩,
   ⟨"Nap after " ++ toString cfg.lateNapHour ++ ":00 → bedtime cap −" ++
      toString cfg.bedtimeEarlierByMinIfLateNap ++ " min",
    if b.lateNap then .applied else .pending⟩,
   ⟨"Late nap detected → next nap capped at " ++
      toString cfg.nextNapCapMinIfLateNap ++ " min",
    if b.lateNap then .applied else .pending⟩]

/-- `computeOutputs` from `constraints.ts`.  `zoned` is the civil-time
service for the requested zone, `fmt` its localized time formatter. -/
def currentlyAsleepB (state : CoreState) : Bool :=
  match state.lastNapStart, state.lastNapEnd with
  | none, _ => false
  | some _, none => true
  | some s, some e => e < s

def computeOutputs (zoned : Int → Civil) (fmt : Int → String)
    (state : CoreState) (now : Int) (cfg : ConstraintConfig) : OutputModel :=
  let asleepB : Bool := currentlyAsleepB state
  let base : OutputModel :=
    if truthy state.lastWakeTime then
      let lastWake := state.lastWakeTime.getD 0
      let b := awakeBranchOf zoned state now cfg lastWake
      let cats := awakeCategories asleepB b
      let shifts := awakeShifts cfg b
      let wakeUtilization : Option ℚ :=
        some (min 1 (max 0 ((b.awakeMin : ℚ) / (b.maxWake : ℚ))))
      let regulationRisk : RiskTier :=
        match state.regulationLevel with
        | .low => .low
        | .high => .high
        | .medium => .rising
      if asleepB then
        { stateSummary := []
          nextWindow := none
          nextHardStop := none
          isAsleep := asleepB
          nextWindowStartUtc := none
          nextWindowEndUtc := none
          nextHardStopUtc := none
          wakeWindowRemainingMin := none
          expectedWakeUtc := none
          activityAllowed := cats.2.2.1
          activitySuppressed := cats.2.2.2
          windowAllowed := cats.1
          windowSuppressed := cats.2.1
          shiftPreview := shifts
          wakeUtilization := wakeUtilization
          sleepPressureTrend := .down
          regulationRisk := regulationRisk }
      else
        { stateSummary := []
          nextWindow := some (fmt b.startWindow ++ " – " ++ fmt b.endWindow)
          nextHardStop := some ("Routine latest " ++ fmt b.routineLatest ++
            " (bedtime cap " ++ fmt b.bedtimeLatest ++ ")")
          isAsleep := asleepB
          nextWindowStartUtc := some b.startWindow
          nextWindowEndUtc := some b.endWindow
          nextHardStopUtc := some b.routineLatest
          wakeWindowRemainingMin := some (max 0 (b.maxWake - b.awakeMin))
          expectedWakeUtc := none
          activityAllowed := cats.2.2.1
          activitySuppressed := cats.2.2.2
          windowAllowed := cats.1
          windowSuppressed := cats.2.1
          shiftPreview := shifts
          wakeUtilization := wakeUtilization
          sleepPressureTrend := .up
          regulationRisk := regulationRisk }
    else
      { stateSummary := []
        nextWindow := none
        nextHardStop := none
        isAsleep := asleepB
        nextWindowStartUtc := none
        nextWindowEndUtc := none
        nextHardStopUtc := none
        wakeWindowRemainingMin := none
        expectedWakeUtc := none
        activityAllowed :=
          [⟨"Log first awake", none⟩, ⟨"Record a feed", none⟩,
           ⟨"Start routine when ready", none⟩]
        activitySuppressed :=
          [⟨"High stimulation", "system not yet calibrated"⟩,
           ⟨"New novel activities", "system not yet calibrated"⟩]
        windowAllowed := ["Log first awake"]
        windowSuppressed := ["High stimulation", "New novel activities"]
        shiftPreview := [⟨"First awake marker → system window active", .pending⟩]
        wakeUtilization := none
        sleepPressureTrend := .up
        regulationRisk := .rising }
  let expectedWakeUtc : Option Int :=
    if asleepB && truthy state.lastNapStart then
      let napStart := state.lastNapStart.getD 0
      let lateNap :=
        match state.lastNapEnd with
        | none => false
        | some e => decide ((zoned e).hour ≥ cfg.lateNapHour)
      let estimatedDuration :=
        if lateNap then min cfg.expectedNapDurationMin cfg.nextNapCapMinIfLateNap
        else cfg.expectedNapDurationMin
      some (addMinutes napStart estimatedDuration)
    else none
  let headSummary : List String :=
    if asleepB && truthy state.lastNapStart then
      let napStart := state.lastNapStart.getD 0
      ["Asleep for " ++ toString (minutesFromMs (now - napStart)) ++ " min",
       match expectedWakeUtc with
       | some w => "Expected wake " ++ fmt w
       | none => "Expected wake —"]
    else if truthy state.lastWakeTime then
      let lastWake := state.lastWakeTime.getD 0
      ["Awake for " ++ toString (minutesFromMs (now - lastWake)) ++ " min",
       if truthy state.lastNapDuration then
         "Last slept " ++
           toString (minutesFromMs (state.lastNapDuration.getD 0)) ++ " min"
       else "Last slept —"]
    else ["Awaiting first awake marker", "Last slept —"]
  let feedSummary : List String :=
    if truthy state.lastFeedTime then
      ["Last feed " ++
        toString (minutesFromMs (now - state.lastFeedTime.getD 0)) ++ " min ago"]
    else ["No feed logged yet"]
  let levelText : String :=
    match state.regulationLevel with
    | .low => "low"
    | .medium => "medium"
    | .high => "high"
  { base with
      expectedWakeUtc := expectedWakeUtc
      stateSummary := headSummary ++ feedSummary ++
        ["Regulation level: " ++ levelText] }

/-- One baseline cycle from wake point `wake`: the synthesized feed, nap
start, and nap end, at the offsets prescribed by the configuration. -/
def baselineCycle (cfg : ConstraintConfig) (wake : Int) : List CareEvent :=
  [mkAutoFeed (wake + cfg.feedIntervalMinMin * msMin),
   mkAutoNapStart (wake + cfg.minWakeWindowMin * msMin),
   mkAutoNapEnd (wake + cfg.minWakeWindowMin * msMin +
     cfg.expectedNapDurationMin * msMin)]

/-- The length of one full baseline cycle: the wake point advances by
`minWakeWindowMin + expectedNapDurationMin` minutes per cycle. -/
def cycleLenMs (cfg : ConstraintConfig) : Int :=
  (cfg.minWakeWindowMin + cfg.expectedNapDurationMin) * msMin

/-- `n` complete baseline cycles starting at `wake`. -/
def baselineClosed (cfg : ConstraintConfig) : Nat → Int → List CareEvent
  | 0, _ => []
  | n + 1, wake =>
    baselineCycle cfg wake ++ baselineClosed cfg n (wake + cycleLenMs cfg)

/-- The C6 sentence, formalized literally from the spec's words: the horizon
is the latest timestamp among the last three real events, "or now if there
are fewer than three". -/
def horizonClaimC6 (withFirstAwake : List CareEvent) (now : Int) :
    Option Int :=
  let realEvents := withFirstAwake.filter realFilter
  if realEvents.length < 3 then some now
  else maxParse (realEvents.drop (realEvents.length - 3))

/-- The amended horizon description: `now` only when there are *no* real
events; otherwise the `Math.max` of the parsed timestamps of the most
recent up-to-three real events (written here via `reverse`/`take` rather
than the source's `slice(-3)`). -/
def horizonAmendedC6 (withFirstAwake : List CareEvent) (now : Int) :
    Option Int :=
  let realEvents := withFirstAwake.filter realFilter
  if realEvents.isEmpty then some now
  else maxParse (realEvents.reverse.take 3).reverse

/-- A concrete configuration used to instantiate witnesses: the
`defaultConfig` of the provided `constraints.ts` with a feed-interval lower
bound of 120 minutes for the field whose defining revision is absent. -/
def cfgW : ConstraintConfig :=
  { minWakeWindowMin := 75
    maxWakeWindowMin := 130
    shortenWakeByMinIfShortNap := 15
    shortNapThresholdMin := 45
    lateNapHour := 15
    bedtimeLatestHour := 20
    bedtimeLatestMinute := 0
    bedtimeEarlierByMinIfLateNap := 30
    routineLatencyMin := 25
    setupLatencyMin := 10
    nextNapCapMinIfLateNap := 40
    feedIntervalMinMin := 120
    feedIntervalMaxMin := 180
    expectedNapDurationMin := 60 }

/-- A currently-asleep state with a known last wake time, used to probe the
projector's asleep branch. -/
def st8 : CoreState :=
  { initialCoreState with lastWakeTime := some 1000000,
                          lastNapStart := some 2000000 }

/-- Every timestamp in the list parses (`Date.parse` does not yield `NaN`). -/
def allParsed (l : List CareEvent) : Prop :=
  ∀ e ∈ l, e.ts ≠ none

/-- The C3 sentence, formalized literally: pressure is `0` when no
`lastWakeTime` is set and otherwise `min(1, awakeMinutes/150 + napPenalty)`,
with `napPenalty = 0.15` exactly when the most recent nap lasted under 45
minutes — *including a nap of duration 0*. -/
def pressureClaimC3 (s : CoreState) (now : Int) : Prop :=
  (s.lastWakeTime = none → s.estimatedSleepPressure = 0) ∧
  (∀ w, s.lastWakeTime = some w →
    s.estimatedSleepPressure =
      min 1 (max 0 (((now - w : Int) : ℚ) / (msMin : ℚ)) / 150 +
        (if ∃ d, s.lastNapDuration = some d ∧ (d : ℚ) / (msMin : ℚ) < 45
         then 3/20 else 0)))


/-!
## Properties of the timestamp sort

The JavaScript comparator is inconsistent when a timestamp is unparseable
(`NaN` compares "equal" to everything), so the sort is analyzed in two
layers: idempotence holds for *every* total comparator, and stability-style
facts (commutation with `filter`, preservation of sortedness) hold on lists
whose timestamps all parse, where `evLe` is a genuine total preorder.
-/

section SortLemmas

variable {α : Type _} (r : α → α → Prop) [DecidableRel r]

theorem orderedInsert_cons_pos {b c : α} (u' : List α) (h : r b c) :
    List.orderedInsert r b (c :: u') = b :: c :: u' := by
  simp [List.orderedInsert, if_pos h]

theorem orderedInsert_cons_neg {b c : α} (u' : List α) (h : ¬r b c) :
    List.orderedInsert r b (c :: u') = c :: List.orderedInsert r b u' := by
  simp [List.orderedInsert, if_neg h]

theorem orderedInsert_head_or_tail (b : α) (u : List α) :
    List.orderedInsert r b u = b :: u ∨
      ∃ c u', u = c :: u' ∧ ¬r b c ∧
        List.orderedInsert r b u = c :: List.orderedInsert r b u' := by
  cases u with
  | nil => exact Or.inl rfl
  | cons c u' =>
    by_cases h : r b c
    · exact Or.inl (by simp [List.orderedInsert, if_pos h])
    · exact Or.inr ⟨c, u', rfl, h, by simp [List.orderedInsert, if_neg h]⟩

theorem insertionSort_fixed_orderedInsert
    (total : ∀ a b, r a b ∨ r b a) (a : α) :
    ∀ s : List α, List.insertionSort r s = s →
      List.insertionSort r (List.orderedInsert r a s) =
        List.orderedInsert r a s := by
  intro s
  induction s with
  | nil => intro _; simp [List.insertionSort, List.orderedInsert]
  | cons b t ih =>
    intro hs
    have hbt : List.orderedInsert r b (List.insertionSort r t) = b :: t := hs
    have key : List.insertionSort r t = t ∧ ∀ c t', t = c :: t' → r b c := by
      cases hu : List.insertionSort r t with
      | nil =>
        have ht : t = [] := by
          have := hbt
          rw [hu] at this
          simpa [List.orderedInsert] using this.symm
        subst ht
        exact ⟨rfl, by intro c t' h; cases h⟩
      | cons c u' =>
        by_cases hrc : r b c
        · have heq : b :: c :: u' = b :: t := by
            have h0 := hbt
            rwa [hu, orderedInsert_cons_pos r u' hrc] at h0
          have ht : t = c :: u' := by
            injection heq with h1 h2
            exact h2.symm
          refine ⟨ht.symm, ?_⟩
          intro c' t' h
          rw [ht] at h
          injection h with h1 h2
          rwa [← h1]
        · exfalso
          have heq : c :: List.orderedInsert r b u' = b :: t := by
            have h0 := hbt
            rwa [hu, orderedInsert_cons_neg r u' hrc] at h0
          have hcb : c = b := by
            injection heq with h1 h2
            try exact h1
          rw [hcb] at hrc
          exact hrc ((total b b).elim id id)
    by_cases hab : r a b
    · rw [orderedInsert_cons_pos r t hab]
      show List.orderedInsert r a (List.insertionSort r (b :: t)) = a :: b :: t
      rw [hs]
      exact orderedInsert_cons_pos r t hab
    · have hba : r b a := (total a b).resolve_left hab
      rw [show List.orderedInsert r a (b :: t) =
            b :: List.orderedInsert r a t from by
        simp [List.orderedInsert, if_neg hab]]
      show List.orderedInsert r b
          (List.insertionSort r (List.orderedInsert r a t)) =
        b :: List.orderedInsert r a t
      rw [ih key.1]
      cases t with
      | nil => simp [List.orderedInsert, if_pos hba]
      | cons c t' =>
        have hbc : r b c := key.2 c t' rfl
        by_cases hac : r a c
        · rw [show List.orderedInsert r a (c :: t') = a :: c :: t' from by
            simp [List.orderedInsert, if_pos hac]]
          simp [List.orderedInsert, if_pos hba]
        · rw [show List.orderedInsert r a (c :: t') =
                c :: List.orderedInsert r a t' from by
            simp [List.orderedInsert, if_neg hac]]
          simp [List.orderedInsert, if_pos hbc]

theorem insertionSort_idem (total : ∀ a b, r a b ∨ r b a) (l : List α) :
    List.insertionSort r (List.insertionSort r l) =
      List.insertionSort r l := by
  induction l with
  | nil => rfl
  | cons a l ih =>
    have h : List.insertionSort r (a :: l) =
        List.orderedInsert r a (List.insertionSort r l) := rfl
    rw [h, insertionSort_fixed_orderedInsert r total a (List.insertionSort r l) ih]

end SortLemmas

theorem evLe_total (a b : CareEvent) : evLe a b ∨ evLe b a := by
  cases ha : a.ts with
  | none =>
    refine Or.inl ?_
    show ∀ x y, a.ts = some x → b.ts = some y → x ≤ y
    intro x y hx hy
    rw [ha] at hx
    cases hx
  | some x =>
    cases hb : b.ts with
    | none =>
      refine Or.inr ?_
      show ∀ x y, b.ts = some x → a.ts = some y → x ≤ y
      intro u v hu hv
      rw [hb] at hu
      cases hu
    | some y =>
      rcases Int.le_total x y with h | h
      · refine Or.inl ?_
        show ∀ x y, a.ts = some x → b.ts = some y → x ≤ y
        intro u v hu hv
        rw [ha] at hu
        rw [hb] at hv
        injection hu with hu
        injection hv with hv
        rw [← hu, ← hv]
        exact h
      · refine Or.inr ?_
        show ∀ x y, b.ts = some x → a.ts = some y → x ≤ y
        intro u v hu hv
        rw [hb] at hu
        rw [ha] at hv
        injection hu with hu
        injection hv with hv
        rw [← hu, ← hv]
        exact h

/-- Sorting the event log is idempotent, even in the presence of
unparseable timestamps. -/
theorem sortEvents_idem (l : List CareEvent) :
    sortEvents (sortEvents l) = sortEvents l :=
  insertionSort_idem evLe evLe_total l

theorem mem_sortEvents {a : CareEvent} {l : List CareEvent} :
    a ∈ sortEvents l ↔ a ∈ l :=
  List.mem_insertionSort evLe

theorem sortEvents_perm (l : List CareEvent) : List.Perm (sortEvents l) l :=
  List.perm_insertionSort evLe l

theorem any_sortEvents (l : List CareEvent) (q : CareEvent → Bool) :
    (sortEvents l).any q = l.any q := by
  rw [Bool.eq_iff_iff, List.any_eq_true, List.any_eq_true]
  constructor
  · rintro ⟨x, hx, hq⟩; exact ⟨x, mem_sortEvents.mp hx, hq⟩
  · rintro ⟨x, hx, hq⟩; exact ⟨x, mem_sortEvents.mpr hx, hq⟩

theorem allParsed_sortEvents {l : List CareEvent} (h : allParsed l) :
    allParsed (sortEvents l) := fun e he => h e (mem_sortEvents.mp he)

theorem allParsed_of_sortEvents {l : List CareEvent}
    (h : allParsed (sortEvents l)) : allParsed l :=
  fun e he => h e (mem_sortEvents.mpr he)

theorem allParsed_filter {l : List CareEvent} (p : CareEvent → Bool)
    (h : allParsed l) : allParsed (l.filter p) :=
  fun e he => h e (List.mem_of_mem_filter he)

theorem allParsed_append {l₁ l₂ : List CareEvent} (h₁ : allParsed l₁)
    (h₂ : allParsed l₂) : allParsed (l₁ ++ l₂) := by
  intro e he
  rcases List.mem_append.mp he with h | h
  · exact h₁ e h
  · exact h₂ e h

theorem evLe_trans_parsed {a b c : CareEvent} (hb : b.ts ≠ none)
    (hab : evLe a b) (hbc : evLe b c) : evLe a c := by
  obtain ⟨y, hy⟩ := Option.ne_none_iff_exists'.mp hb
  intro x z hx hz
  exact le_trans (hab x y hx hy) (hbc y z hy hz)

theorem evLe_of_not_evLe {a b : CareEvent} (h : ¬evLe a b) : evLe b a :=
  (evLe_total a b).resolve_left h

theorem orderedInsert_of_forall_le {a : CareEvent} {w : List CareEvent}
    (h : ∀ x ∈ w, evLe a x) : List.orderedInsert evLe a w = a :: w := by
  cases w with
  | nil => rfl
  | cons b v => simp [List.orderedInsert, if_pos (h b (List.mem_cons_self b v))]

theorem orderedInsert_cons_of_le {a b : CareEvent} (v : List CareEvent)
    (h : evLe a b) : List.orderedInsert evLe a (b :: v) = a :: b :: v := by
  simp [List.orderedInsert, if_pos h]

theorem orderedInsert_cons_of_not_le {a b : CareEvent} (v : List CareEvent)
    (h : ¬evLe a b) :
    List.orderedInsert evLe a (b :: v) = b :: List.orderedInsert evLe a v := by
  simp [List.orderedInsert, if_neg h]

theorem sorted_orderedInsert_parsed {a : CareEvent} {u : List CareEvent}
    (hp : ∀ e ∈ a :: u, e.ts ≠ none) (hs : u.Sorted evLe) :
    (List.orderedInsert evLe a u).Sorted evLe := by
  induction u with
  | nil => simp [List.orderedInsert]
  | cons b v ih =>
    by_cases hab : evLe a b
    · have hle : ∀ x ∈ b :: v, evLe a x := by
        intro x hx
        rcases List.mem_cons.mp hx with rfl | hx
        · exact hab
        · exact evLe_trans_parsed (hp b (by simp)) hab
            (List.rel_of_sorted_cons hs x hx)
      rw [orderedInsert_cons_of_le v hab]
      exact List.sorted_cons.mpr ⟨hle, hs⟩
    · rw [orderedInsert_cons_of_not_le v hab]
      refine List.sorted_cons.mpr ⟨?_, ih ?_ hs.of_cons⟩
      · intro x hx
        rcases (List.mem_orderedInsert evLe).mp hx with rfl | hx
        · exact evLe_of_not_evLe hab
        · exact List.rel_of_sorted_cons hs x hx
      · intro e he
        rcases List.mem_cons.mp he with rfl | he
        · exact hp e (by simp)
        · exact hp e (by simp [he])

theorem sorted_sortEvents_parsed {l : List CareEvent} (h : allParsed l) :
    (sortEvents l).Sorted evLe := by
  induction l with
  | nil => simp [sortEvents, List.insertionSort]
  | cons a l ih =>
    show (List.orderedInsert evLe a (sortEvents l)).Sorted evLe
    refine sorted_orderedInsert_parsed ?_ (ih ?_)
    · intro e he
      rcases List.mem_cons.mp he with rfl | he
      · exact h e (by simp)
      · exact h e (by simp [mem_sortEvents.mp he])
    · intro e he
      exact h e (by simp [he])

theorem sortEvents_eq_of_sorted {l : List CareEvent} (h : l.Sorted evLe) :
    sortEvents l = l :=
  List.Sorted.insertionSort_eq h

theorem filter_orderedInsert_parsed (p : CareEvent → Bool)
    {a : CareEvent} {u : List CareEvent} (hp : ∀ e ∈ a :: u, e.ts ≠ none)
    (hs : u.Sorted evLe) :
    (List.orderedInsert evLe a u).filter p =
      if p a then List.orderedInsert evLe a (u.filter p) else u.filter p := by
  induction u with
  | nil =>
    cases hpa : p a <;> simp [List.orderedInsert, List.filter_cons, hpa]
  | cons b v ih =>
    have hpv : ∀ e ∈ a :: v, e.ts ≠ none := by
      intro e he
      rcases List.mem_cons.mp he with rfl | he
      · exact hp e (by simp)
      · exact hp e (by simp [he])
    by_cases hab : evLe a b
    · have hle : ∀ x ∈ (b :: v).filter p, evLe a x := by
        intro x hx
        have hxm := List.mem_of_mem_filter hx
        rcases List.mem_cons.mp hxm with rfl | hxm
        · exact hab
        · exact evLe_trans_parsed (hp b (by simp)) hab
            (List.rel_of_sorted_cons hs x hxm)
      rw [orderedInsert_cons_of_le v hab]
      cases hpa : p a with
      | true =>
        rw [orderedInsert_of_forall_le hle]
        simp [List.filter_cons, hpa]
      | false => simp [List.filter_cons, hpa]
    · rw [orderedInsert_cons_of_not_le v hab]
      have ihv := ih hpv hs.of_cons
      cases hpa : p a with
      | true =>
        cases hpb : p b with
        | true =>
          rw [show (b :: v).filter p = b :: v.filter p from by
            simp [List.filter_cons, hpb]]
          rw [show List.orderedInsert evLe a (b :: v.filter p) =
                b :: List.orderedInsert evLe a (v.filter p) from
            orderedInsert_cons_of_not_le _ hab]
          rw [show (b :: List.orderedInsert evLe a v).filter p =
                b :: (List.orderedInsert evLe a v).filter p from by
            simp [List.filter_cons, hpb]]
          rw [ihv, hpa]
          try simp
        | false =>
          rw [show (b :: v).filter p = v.filter p from by
            simp [List.filter_cons, hpb]]
          rw [show (b :: List.orderedInsert evLe a v).filter p =
                (List.orderedInsert evLe a v).filter p from by
            simp [List.filter_cons, hpb]]
          rw [ihv, hpa]
          try simp
      | false =>
        cases hpb : p b with
        | true =>
          rw [show (b :: v).filter p = b :: v.filter p from by
            simp [List.filter_cons, hpb]]
          rw [show (b :: List.orderedInsert evLe a v).filter p =
                b :: (List.orderedInsert evLe a v).filter p from by
            simp [List.filter_cons, hpb]]
          rw [ihv, hpa]
          try simp
        | false =>
          rw [show (b :: v).filter p = v.filter p from by
            simp [List.filter_cons, hpb]]
          rw [show (b :: List.orderedInsert evLe a v).filter p =
                (List.orderedInsert evLe a v).filter p from by
            simp [List.filter_cons, hpb]]
          rw [ihv, hpa]
          try simp

theorem filter_sortEvents_parsed (p : CareEvent → Bool)
    {l : List CareEvent} (h : allParsed l) :
    (sortEvents l).filter p = sortEvents (l.filter p) := by
  induction l with
  | nil => rfl
  | cons a l ih =>
    have hl : allParsed l := fun e he => h e (by simp [he])
    have step : (List.orderedInsert evLe a (sortEvents l)).filter p =
        if p a then List.orderedInsert evLe a ((sortEvents l).filter p)
        else (sortEvents l).filter p :=
      filter_orderedInsert_parsed p (by
        intro e he
        rcases List.mem_cons.mp he with rfl | he
        · exact h e (by simp)
        · exact hl e (mem_sortEvents.mp he)) (sorted_sortEvents_parsed hl)
    show (List.orderedInsert evLe a (sortEvents l)).filter p = _
    rw [step, ih hl]
    cases hpa : p a with
    | true =>
      rw [if_pos rfl]
      rw [show (a :: l).filter p = a :: l.filter p from by
        simp [List.filter, hpa]]
      rfl
    | false =>
      rw [if_neg (by simp)]
      rw [show (a :: l).filter p = l.filter p from by
        simp [List.filter, hpa]]

theorem find?_eq_head?_filter (p : CareEvent → Bool) :
    ∀ l : List CareEvent, l.find? p = (l.filter p).head?
  | [] => rfl
  | a :: l => by
    cases hpa : p a with
    | true =>
      rw [List.find?_cons_of_pos _ hpa, List.filter_cons_of_pos hpa]
      rfl
    | false =>
      rw [List.find?_cons_of_neg _ (by simp [hpa]),
        List.filter_cons_of_neg (by simp [hpa])]
      exact find?_eq_head?_filter p l

/-! ## The Core State Reducer: claims C5, C3, C4, C10 -/

theorem stepEvent_invalid {now : Int} (acc : CoreState × Int)
    {e : CareEvent} (h : validAt now e = false) :
    stepEvent now acc e = acc := by
  unfold stepEvent
  unfold validAt at h
  cases hts : e.ts with
  | none => rfl
  | some t =>
    rw [hts] at h
    simp only [decide_eq_false_iff_not, not_le] at h
    simp [if_pos h]

theorem foldl_stepEvent_filter (now : Int) :
    ∀ (l : List CareEvent) (acc : CoreState × Int),
      l.foldl (stepEvent now) acc =
        (l.filter (validAt now)).foldl (stepEvent now) acc := by
  intro l
  induction l with
  | nil => intro acc; rfl
  | cons e l ih =>
    intro acc
    cases hv : validAt now e with
    | true =>
      rw [List.filter_cons_of_pos hv]
      simp only [List.foldl_cons]
      exact ih (stepEvent now acc e)
    | false =>
      rw [List.filter_cons_of_neg (by simp [hv])]
      simp only [List.foldl_cons]
      rw [stepEvent_invalid acc hv]
      exact ih acc

/-- C5.  The reducer ignores entirely any event whose timestamp is
unparseable or after "now": its result on any log equals its result on the
log with those events removed, so such events contribute to no `CoreState`
field.  Totality is definitional: `recomputeCoreState` is a total function
of its inputs (no exception path exists in the embedding, matching the
skip-don't-throw guard in the source). -/
theorem c5_reducer_ignores_invalid_events (events : List CareEvent)
    (now : Int) :
    recomputeCoreState events now =
      recomputeCoreState (events.filter (validAt now)) now := by
  unfold recomputeCoreState
  rw [foldl_stepEvent_filter]

/-- C10.  `applyEvent` returns a state whose `autoSuppressed` list is
exactly the input state's list: appending an event never adds, removes, or
alters suppression entries. -/
theorem c10_applyEvent_preserves_autoSuppressed (zoned : Int → Civil)
    (cfg : ConstraintConfig) (state : AppState) (event : CareEvent)
    (now : Int) :
    (applyEvent zoned cfg state event now).autoSuppressed =
      state.autoSuppressed := rfl

/-- `computeSleepPressure` at a set wake time, unfolded. -/
theorem computeSleepPressure_some (w : Int) (d : Option ℚ) (now : Int) :
    computeSleepPressure (some w) d now =
      if w = 0 then 0
      else min 1 (max 0 (((now - w : Int) : ℚ) / (msMin : ℚ)) / 150 +
        (match d with
         | some x => if x < 45 then (3 : ℚ)/20 else 0
         | none => 0)) := rfl

/-- The nap penalty computed through the truthiness plumbing of
`recomputeCoreState` equals the corrected description: `0.15` exactly for a
recorded, nonzero duration under 45 minutes. -/
theorem napPenalty_eq (X : Option Int) :
    (match (if truthy X then some ((X.getD 0 : ℚ) / (msMin : ℚ))
            else none : Option ℚ) with
      | some x => if x < 45 then (3 : ℚ)/20 else 0
      | none => 0) =
    (if ∃ d, X = some d ∧ d ≠ 0 ∧ (d : ℚ) / (msMin : ℚ) < 45
     then (3 : ℚ)/20 else 0) := by
  cases X with
  | none =>
    rw [if_neg (by rintro ⟨d, h, -⟩)]
    rfl
  | some d =>
    by_cases hd0 : d = 0
    · subst hd0
      rw [if_neg (by rintro ⟨d', hx, hne, -⟩)]
      rfl
    · have ht : truthy (some d) = true := by simp [truthy, hd0]
      rw [ht]
      have hiff : (∃ d', (some d : Option Int) = some d' ∧ d' ≠ 0 ∧
          (d' : ℚ) / (msMin : ℚ) < 45) ↔ ((d : ℚ) / (msMin : ℚ) < 45) := by
        constructor
        · rintro ⟨d', hx, -, hlt⟩
          injection hx with hx
          rwa [hx]
        · intro hlt
          exact ⟨d, rfl, hd0, hlt⟩
      rw [if_congr hiff rfl rfl]
      rfl

/-- The corrected pressure formula, proved once and shared by the C3
refutation and the C3 amendment. -/
theorem pressure_formula (events : List CareEvent) (now : Int) :
    ((recomputeCoreState events now).lastWakeTime = none ∨
      (recomputeCoreState events now).lastWakeTime = some 0 →
      (recomputeCoreState events now).estimatedSleepPressure = 0) ∧
    (∀ w, (recomputeCoreState events now).lastWakeTime = some w → w ≠ 0 →
      (recomputeCoreState events now).estimatedSleepPressure =
        min 1 (max 0 (((now - w : Int) : ℚ) / (msMin : ℚ)) / 150 +
          (if ∃ d, (recomputeCoreState events now).lastNapDuration = some d ∧
              d ≠ 0 ∧ (d : ℚ) / (msMin : ℚ) < 45
           then 3/20 else 0))) := by
  have hpres : (recomputeCoreState events now).estimatedSleepPressure =
      computeSleepPressure
        ((List.foldl (stepEvent now) (initialCoreState, 0) events).1.lastWakeTime)
        (if truthy (List.foldl (stepEvent now) (initialCoreState, 0) events).1.lastNapDuration
         then some (((List.foldl (stepEvent now) (initialCoreState, 0) events).1.lastNapDuration.getD 0 : ℚ) / (msMin : ℚ))
         else none) now := rfl
  have hwake : (recomputeCoreState events now).lastWakeTime =
      (List.foldl (stepEvent now) (initialCoreState, 0) events).1.lastWakeTime := rfl
  have hdur : (recomputeCoreState events now).lastNapDuration =
      (List.foldl (stepEvent now) (initialCoreState, 0) events).1.lastNapDuration := rfl
  rw [hpres, hwake, hdur]
  generalize (List.foldl (stepEvent now) (initialCoreState, 0) events).1 = a
  constructor
  · intro hw
    rcases hw with hw | hw <;> rw [hw]
    · rfl
    · rfl
  · intro w hw hw0
    rw [hw, computeSleepPressure_some, if_neg hw0]
    rw [napPenalty_eq a.lastNapDuration]

/-- C3 counterexample.  A zero-duration nap (`NapStarted` and `NapEnded`
both at `t = 60000`) records `lastNapDuration = 0`, but
`lastNapDuration ? ... : null` is a JavaScript truthiness test, so the
`0.15` short-nap penalty is *not* applied: 75 minutes after the nap the
pressure is `75/150 = 1/2`, not `min(1, 1/2 + 0.15) = 13/20` as the claim
requires. -/
theorem c3_counterexample :
    ¬ pressureClaimC3
        (recomputeCoreState
          [⟨"n1", .NapStarted, some 60000, false⟩,
           ⟨"n2", .NapEnded, some 60000, false⟩] 4560000) 4560000 := by
  intro h
  have h2 := h.2 60000 rfl
  have h3 := (pressure_formula
    [⟨"n1", .NapStarted, some 60000, false⟩,
     ⟨"n2", .NapEnded, some 60000, false⟩] 4560000).2 60000 rfl (by norm_num)
  rw [show (recomputeCoreState
      [⟨"n1", .NapStarted, some 60000, false⟩,
       ⟨"n2", .NapEnded, some 60000, false⟩] 4560000).lastNapDuration =
      some 0 from rfl] at h2 h3
  rw [if_pos ⟨0, rfl, by norm_num⟩] at h2
  rw [if_neg (by
    rintro ⟨d, hx, hne, hlt⟩
    injection hx with hx
    exact hne hx.symm)] at h3
  rw [h3] at h2
  rw [show ((4560000 - 60000 : Int) : ℚ) = 4500000 from by norm_num] at h2
  rw [show ((msMin : Int) : ℚ) = 60000 from by norm_num [msMin]] at h2
  rw [show (max (0:ℚ) (4500000/60000)) = 75 from by
    rw [max_eq_right] <;> norm_num] at h2
  rw [show (min (1:ℚ) (75/150 + 0)) = 1/2 from by
    rw [min_eq_right] <;> norm_num] at h2
  rw [show (min (1:ℚ) (75/150 + 3/20)) = 13/20 from by
    rw [min_eq_right] <;> norm_num] at h2
  exact absurd h2 (by norm_num)

/-- C3 amended: the reducer's `estimatedSleepPressure` is `0` when
`lastWakeTime` is unset *or is the falsy timestamp 0*; otherwise it is
`min(1, awakeMinutes/150 + napPenalty)` where `napPenalty = 0.15` exactly
when a most-recent-nap duration is recorded, is nonzero, and is under 45
minutes (a zero-duration nap carries no penalty). -/
theorem c3_amended_pressure_formula (events : List CareEvent) (now : Int) :
    ((recomputeCoreState events now).lastWakeTime = none ∨
      (recomputeCoreState events now).lastWakeTime = some 0 →
      (recomputeCoreState events now).estimatedSleepPressure = 0) ∧
    (∀ w, (recomputeCoreState events now).lastWakeTime = some w → w ≠ 0 →
      (recomputeCoreState events now).estimatedSleepPressure =
        min 1 (max 0 (((now - w : Int) : ℚ) / (msMin : ℚ)) / 150 +
          (if ∃ d, (recomputeCoreState events now).lastNapDuration = some d ∧
              d ≠ 0 ∧ (d : ℚ) / (msMin : ℚ) < 45
           then 3/20 else 0))) :=
  pressure_formula events now

/-- C3 amended witness: a lone `FirstAwake` at `t = 60000`, 75 minutes
later. -/
theorem c3_amended_witness :
    (recomputeCoreState [⟨"w", .FirstAwake, some 60000, false⟩]
        4560000).estimatedSleepPressure =
      min 1 (max 0 (((4560000 - 60000 : Int) : ℚ) / (msMin : ℚ)) / 150 +
        (if ∃ d, (recomputeCoreState [⟨"w", .FirstAwake, some 60000, false⟩]
              4560000).lastNapDuration = some d ∧
            d ≠ 0 ∧ (d : ℚ) / (msMin : ℚ) < 45
         then 3/20 else 0)) :=
  (c3_amended_pressure_formula [⟨"w", .FirstAwake, some 60000, false⟩]
    4560000).2 60000 (by decide) (by decide)

/-- The code-side high condition (over the minute-converted feed gap)
matches the claim-side condition over the stored millisecond feed gap; the
falsy `timeSinceLastFeed = 0` case agrees because `0 ≥ 180` fails. -/
theorem codeHigh_iff (P : ℚ) (tsf : Option Int) :
    (P ≥ 4/5 ∨ ∃ m', (if truthy tsf
        then some ((tsf.getD 0 : ℚ) / (msMin : ℚ)) else none) = some m' ∧
        m' ≥ 180) ↔
      (P ≥ 4/5 ∨ ∃ m, tsf = some m ∧ (m : ℚ) / (msMin : ℚ) ≥ 180) := by
  cases tsf with
  | none => simp [truthy]
  | some m =>
    by_cases hm : m = 0
    · subst hm
      rw [show truthy (some 0) = false from rfl]
      simp only [Bool.false_eq_true, if_false]
      constructor
      · rintro (h | ⟨m', hx, -⟩)
        · exact Or.inl h
        · cases hx
      · rintro (h | ⟨m', hx, hge⟩)
        · exact Or.inl h
        · injection hx with hx
          rw [← hx] at hge
          norm_num [msMin] at hge
    · rw [show truthy (some m) = true from by simp [truthy, hm]]
      simp only [if_true, Option.getD_some]
      constructor
      · rintro (h | ⟨m', hx, hge⟩)
        · exact Or.inl h
        · injection hx with hx
          exact Or.inr ⟨m, rfl, hx ▸ hge⟩
      · rintro (h | ⟨m', hx, hge⟩)
        · exact Or.inl h
        · injection hx with hx
          exact Or.inr ⟨(m : ℚ) / (msMin : ℚ), rfl, hx ▸ hge⟩

/-- The code-side low feed condition (`(tsfMin ?? 0) < 120`) matches the
claim-side "feed gap unknown or under 120 minutes"; `timeSinceLastFeed = 0`
is falsy but `0 < 120` holds on both sides. -/
theorem codeFeedLow_iff (tsf : Option Int) :
    ((if truthy tsf then some ((tsf.getD 0 : ℚ) / (msMin : ℚ))
      else none).getD 0 < 120) ↔
      (tsf = none ∨ ∃ m, tsf = some m ∧ (m : ℚ) / (msMin : ℚ) < 120) := by
  cases tsf with
  | none => simp [truthy]
  | some m =>
    by_cases hm : m = 0
    · subst hm
      rw [show truthy (some 0) = false from rfl]
      simp only [Bool.false_eq_true, if_false, Option.getD_none]
      constructor
      · intro h
        refine Or.inr ⟨0, rfl, ?_⟩
        norm_num [msMin]
      · intro h
        norm_num
    · rw [show truthy (some m) = true from by simp [truthy, hm]]
      simp only [if_true, Option.getD_some]
      constructor
      · intro h
        exact Or.inr ⟨m, rfl, h⟩
      · rintro (h | ⟨m', hx, hlt⟩)
        · cases h
        · injection hx with hx
          exact hx ▸ hlt

/-- The regulation tier characterization, shared with the C4 theorem. -/
theorem level_iff (P : ℚ) (tsf : Option Int) :
    (levelFromSignals P (if truthy tsf
        then some ((tsf.getD 0 : ℚ) / (msMin : ℚ)) else none) = .high ↔
      (P ≥ 4/5 ∨ ∃ m, tsf = some m ∧ (m : ℚ) / (msMin : ℚ) ≥ 180)) ∧
    (levelFromSignals P (if truthy tsf
        then some ((tsf.getD 0 : ℚ) / (msMin : ℚ)) else none) = .low ↔
      ¬(P ≥ 4/5 ∨ ∃ m, tsf = some m ∧ (m : ℚ) / (msMin : ℚ) ≥ 180) ∧
        P ≤ 35/100 ∧ (tsf = none ∨
          ∃ m, tsf = some m ∧ (m : ℚ) / (msMin : ℚ) < 120)) ∧
    (levelFromSignals P (if truthy tsf
        then some ((tsf.getD 0 : ℚ) / (msMin : ℚ)) else none) = .medium ↔
      ¬(P ≥ 4/5 ∨ ∃ m, tsf = some m ∧ (m : ℚ) / (msMin : ℚ) ≥ 180) ∧
        ¬(P ≤ 35/100 ∧ (tsf = none ∨
          ∃ m, tsf = some m ∧ (m : ℚ) / (msMin : ℚ) < 120))) := by
  unfold levelFromSignals
  by_cases h1 : (P ≥ 4/5 ∨ ∃ m', (if truthy tsf
      then some ((tsf.getD 0 : ℚ) / (msMin : ℚ)) else none) = some m' ∧
      m' ≥ 180)
  · rw [if_pos h1]
    have hc := (codeHigh_iff P tsf).mp h1
    refine ⟨by simp [hc], ?_, ?_⟩
    · constructor
      · intro h; cases h
      · rintro ⟨hn, -⟩; exact absurd hc hn
    · constructor
      · intro h; cases h
      · rintro ⟨hn, -⟩; exact absurd hc hn
  · rw [if_neg h1]
    have hc : ¬(P ≥ 4/5 ∨ ∃ m, tsf = some m ∧ (m : ℚ) / (msMin : ℚ) ≥ 180) :=
      fun h => h1 ((codeHigh_iff P tsf).mpr h)
    by_cases h2 : P ≤ 35/100 ∧ (if truthy tsf
        then some ((tsf.getD 0 : ℚ) / (msMin : ℚ)) else none).getD 0 < 120
    · rw [if_pos h2]
      have hf := (codeFeedLow_iff tsf).mp h2.2
      refine ⟨?_, ?_, ?_⟩
      · constructor
        · intro h; cases h
        · intro h; exact absurd h hc
      · simp [hc, h2.1, hf]
      · constructor
        · intro h; cases h
        · rintro ⟨-, hn⟩; exact absurd ⟨h2.1, hf⟩ hn
    · rw [if_neg h2]
      have hn2 : ¬(P ≤ 35/100 ∧ (tsf = none ∨
          ∃ m, tsf = some m ∧ (m : ℚ) / (msMin : ℚ) < 120)) := by
        rintro ⟨hp, hfeed⟩
        exact h2 ⟨hp, (codeFeedLow_iff tsf).mpr hfeed⟩
      refine ⟨?_, ?_, ?_⟩
      · constructor
        · intro h; cases h
        · intro h; exact absurd h hc
      · constructor
        · intro h; cases h
        · rintro ⟨-, hp, hfeed⟩; exact absurd ⟨hp, hfeed⟩ hn2
      · simp [hc, hn2]

/-- C4.  Over every event log and "now": `regulationLevel` is high iff
pressure ≥ 0.8 or the stored feed gap is at least 180 minutes; low iff the
high condition fails, pressure ≤ 0.35, and the feed gap is unknown or under
120 minutes; medium otherwise.  In particular pressure 0.79 with no feed
data is not high, and pressure 0.8 is high regardless of feed timing. -/
theorem c4_regulation_level_tiers (events : List CareEvent) (now : Int) :
    ((recomputeCoreState events now).regulationLevel = .high ↔
      (recomputeCoreState events now).estimatedSleepPressure ≥ 4/5 ∨
        ∃ m, (recomputeCoreState events now).timeSinceLastFeed = some m ∧
          (m : ℚ) / (msMin : ℚ) ≥ 180) ∧
    ((recomputeCoreState events now).regulationLevel = .low ↔
      ¬((recomputeCoreState events now).estimatedSleepPressure ≥ 4/5 ∨
        ∃ m, (recomputeCoreState events now).timeSinceLastFeed = some m ∧
          (m : ℚ) / (msMin : ℚ) ≥ 180) ∧
        (recomputeCoreState events now).estimatedSleepPressure ≤ 35/100 ∧
        ((recomputeCoreState events now).timeSinceLastFeed = none ∨
          ∃ m, (recomputeCoreState events now).timeSinceLastFeed = some m ∧
            (m : ℚ) / (msMin : ℚ) < 120)) ∧
    ((recomputeCoreState events now).regulationLevel = .medium ↔
      ¬((recomputeCoreState events now).estimatedSleepPressure ≥ 4/5 ∨
        ∃ m, (recomputeCoreState events now).timeSinceLastFeed = some m ∧
          (m : ℚ) / (msMin : ℚ) ≥ 180) ∧
        ¬((recomputeCoreState events now).estimatedSleepPressure ≤ 35/100 ∧
          ((recomputeCoreState events now).timeSinceLastFeed = none ∨
            ∃ m, (recomputeCoreState events now).timeSinceLastFeed = some m ∧
              (m : ℚ) / (msMin : ℚ) < 120))) ∧
    levelFromSignals (79/100) none ≠ .high ∧
    (∀ t, levelFromSignals (4/5) t = .high) := by
  have hlev : (recomputeCoreState events now).regulationLevel =
      levelFromSignals (recomputeCoreState events now).estimatedSleepPressure
        (if truthy (recomputeCoreState events now).timeSinceLastFeed
         then some (((recomputeCoreState events now).timeSinceLastFeed.getD 0 : ℚ) /
           (msMin : ℚ))
         else none) := rfl
  rw [hlev]
  have h := level_iff (recomputeCoreState events now).estimatedSleepPressure
    (recomputeCoreState events now).timeSinceLastFeed
  refine ⟨h.1, h.2.1, h.2.2, ?_, ?_⟩
  · intro hcon
    unfold levelFromSignals at hcon
    rw [if_neg (by
      rintro (hge | ⟨m, hx, -⟩)
      · norm_num at hge
      · cases hx)] at hcon
    rw [if_neg (by rintro ⟨hp, -⟩; norm_num at hp)] at hcon
    cases hcon
  · intro t
    unfold levelFromSignals
    rw [if_pos (Or.inl le_rfl)]

/-! ## The Normalizer horizon: claim C6 -/

/-- C6 counterexample.  With exactly one real event (at `t = 0`,
"now" `= 3600000`) the code's horizon is that event's timestamp, not "now"
as the claim ("now whenever there are fewer than three") requires. -/
theorem c6_counterexample :
    horizonOf [⟨"r", .MilkGiven, some 0, false⟩] 3600000 = some 0 ∧
    horizonClaimC6 [⟨"r", .MilkGiven, some 0, false⟩] 3600000 =
      some 3600000 ∧
    horizonOf [⟨"r", .MilkGiven, some 0, false⟩] 3600000 ≠
      horizonClaimC6 [⟨"r", .MilkGiven, some 0, false⟩] 3600000 := by
  refine ⟨rfl, rfl, ?_⟩
  decide

/-- C6 amended: the Normalizer's horizon (as computed inside
`normalizeEventLog`) equals the latest timestamp among the most recent
up-to-three real (non-auto, non-`RoutineStarted`) events, and equals "now"
exactly when there are *no* real events (not "fewer than three"). -/
theorem c6_amended_horizon (withFirstAwake : List CareEvent) (now : Int) :
    horizonOf withFirstAwake now = horizonAmendedC6 withFirstAwake now := by
  simp only [horizonOf, horizonAmendedC6]
  have hr : (withFirstAwake.filter realFilter).drop
      ((withFirstAwake.filter realFilter).length - 3) =
      ((withFirstAwake.filter realFilter).reverse.take 3).reverse := by
    rw [show (withFirstAwake.filter realFilter).drop
        ((withFirstAwake.filter realFilter).length - 3) =
        (withFirstAwake.filter realFilter).rtake 3 from rfl]
    exact List.rtake_eq_reverse_take_reverse _ _
  rw [hr]
  rcases hre : withFirstAwake.filter realFilter with _ | ⟨e, rest⟩
  · rfl
  · have hne : (((e :: rest).reverse.take 3).reverse).isEmpty = false := by
      have h1 : (e :: rest).reverse.take 3 ≠ [] := by
        intro hnil
        have h3 : 0 < min 3 (e :: rest).reverse.length := by
          simp [Nat.lt_min]
        rw [← List.length_take 3 (e :: rest).reverse, hnil] at h3
        cases h3
      have h2 : ((e :: rest).reverse.take 3).reverse ≠ [] := by
        intro hnil
        exact h1 (by simpa using congrArg List.reverse hnil)
      cases hcase : (((e :: rest).reverse.take 3).reverse).isEmpty
      · rfl
      · exact absurd (List.isEmpty_iff.mp hcase) h2
    rw [show (e :: rest).isEmpty = false from rfl, hne]

/-! ## Baseline synthesis: claim C7 -/

theorem baselineClosed_mem_cycle (cfg : ConstraintConfig) :
    ∀ (n k : Nat) (wake : Int), k < n →
      ∀ e ∈ baselineCycle cfg (wake + (k : Int) * cycleLenMs cfg),
        e ∈ baselineClosed cfg n wake := by
  intro n
  induction n with
  | zero => intro k wake hk; cases hk
  | succ n ih =>
    intro k wake hk e he
    unfold baselineClosed
    rw [List.mem_append]
    cases k with
    | zero =>
      left
      simpa using he
    | succ j =>
      right
      refine ih j (wake + cycleLenMs cfg) (Nat.lt_of_succ_lt_succ hk) e ?_
      have harg : wake + ((j + 1 : Nat) : Int) * cycleLenMs cfg =
          wake + cycleLenMs cfg + (j : Int) * cycleLenMs cfg := by
        push_cast
        ring
      rw [harg] at he
      exact he

theorem buildBaselineLoop_closed (cfg : ConstraintConfig) (h : Int)
    (hf : 0 ≤ cfg.feedIntervalMinMin) (hw : 0 < cfg.minWakeWindowMin)
    (hn : 0 < cfg.expectedNapDurationMin) :
    ∀ (fuel : Nat) (wake : Int),
      wake + (fuel : Int) * cycleLenMs cfg + cfg.feedIntervalMinMin * msMin ≤ h →
      buildBaselineLoop cfg (some h) fuel wake = baselineClosed cfg fuel wake := by
  have hms : (0 : Int) < msMin := by norm_num [msMin]
  have hcyc : 0 < cycleLenMs cfg := by
    unfold cycleLenMs
    positivity
  intro fuel
  induction fuel with
  | zero => intro wake hb; rfl
  | succ fuel ih =>
    intro wake hb
    have hfnn : (0 : Int) ≤ (fuel : Int) := Int.natCast_nonneg fuel
    have hfm : (0 : Int) ≤ cfg.feedIntervalMinMin * msMin := by positivity
    have hfc : (0 : Int) ≤ (fuel : Int) * cycleLenMs cfg := by positivity
    have hcast : ((fuel + 1 : Nat) : Int) = (fuel : Int) + 1 := by push_cast; ring
    rw [hcast] at hb
    have hwlt : wake < h := by nlinarith
    have hfeed : wake + cfg.feedIntervalMinMin * msMin ≤ h := by nlinarith
    have hwn : cfg.minWakeWindowMin * msMin ≤ cycleLenMs cfg := by
      unfold cycleLenMs
      nlinarith
    have hnap : wake + cfg.minWakeWindowMin * msMin ≤ h := by nlinarith
    have hsum : cfg.minWakeWindowMin * msMin + cfg.expectedNapDurationMin * msMin =
        cycleLenMs cfg := by
      unfold cycleLenMs
      ring
    have hend : wake + cfg.minWakeWindowMin * msMin +
        cfg.expectedNapDurationMin * msMin ≤ h := by nlinarith
    unfold buildBaselineLoop
    simp only [show ltHorizon wake (some h) = true from by simp [ltHorizon, hwlt],
      show leHorizon (wake + cfg.feedIntervalMinMin * msMin) (some h) = true from by
        simp [leHorizon, hfeed],
      show leHorizon (wake + cfg.minWakeWindowMin * msMin) (some h) = true from by
        simp [leHorizon, hnap],
      show leHorizon (wake + cfg.minWakeWindowMin * msMin +
          cfg.expectedNapDurationMin * msMin) (some h) = true from by
        simp [leHorizon, hend],
      if_true]
    have hrec : buildBaselineLoop cfg (some h) fuel
        (wake + cfg.minWakeWindowMin * msMin + cfg.expectedNapDurationMin * msMin) =
        baselineClosed cfg fuel (wake + cycleLenMs cfg) := by
      have harg : wake + cfg.minWakeWindowMin * msMin +
          cfg.expectedNapDurationMin * msMin = wake + cycleLenMs cfg := by
        unfold cycleLenMs
        ring
      rw [harg]
      exact ih (wake + cycleLenMs cfg) (by nlinarith)
    rw [hrec]
    rfl

theorem buildBaselineLoop_length (cfg : ConstraintConfig)
    (hor : Option Int) :
    ∀ (fuel : Nat) (wake : Int),
      (buildBaselineLoop cfg hor fuel wake).length ≤ 3 * fuel := by
  intro fuel
  induction fuel with
  | zero => intro wake; simp [buildBaselineLoop]
  | succ fuel ih =>
    intro wake
    unfold buildBaselineLoop
    cases hlt : ltHorizon wake hor with
    | false => simp
    | true =>
      simp only [if_true]
      cases hfe : leHorizon (wake + cfg.feedIntervalMinMin * msMin) hor <;>
        cases hns : leHorizon (wake + cfg.minWakeWindowMin * msMin) hor <;>
          cases hne : leHorizon (wake + cfg.minWakeWindowMin * msMin +
              cfg.expectedNapDurationMin * msMin) hor <;>
            simp only [hfe, hns, hne, Bool.false_eq_true, if_false, if_true,
              List.length_append, List.length_cons, List.length_nil,
              List.nil_append, List.cons_append]
      all_goals
        first
        | omega
        | (have hlen := ih (wake + cfg.minWakeWindowMin * msMin +
            cfg.expectedNapDurationMin * msMin)
           omega)

theorem buildBaselineLoop_le_horizon (cfg : ConstraintConfig)
    (hor : Option Int) :
    ∀ (fuel : Nat) (wake : Int), ∀ e ∈ buildBaselineLoop cfg hor fuel wake,
      ∃ t, e.ts = some t ∧ leHorizon t hor = true := by
  intro fuel
  induction fuel with
  | zero => intro wake e he; cases he
  | succ fuel ih =>
    intro wake e he
    unfold buildBaselineLoop at he
    cases hlt : ltHorizon wake hor <;> rw [hlt] at he
    · simp at he
    · simp only [if_true] at he
      cases hfe : leHorizon (wake + cfg.feedIntervalMinMin * msMin) hor <;>
        rw [hfe] at he <;>
        cases hns : leHorizon (wake + cfg.minWakeWindowMin * msMin) hor <;>
          rw [hns] at he
      · simp at he
      · simp only [Bool.false_eq_true, if_false, if_true] at he
        cases hne : leHorizon (wake + cfg.minWakeWindowMin * msMin +
            cfg.expectedNapDurationMin * msMin) hor <;> rw [hne] at he
        · simp only [Bool.false_eq_true, if_false] at he
          simp at he
          subst he
          exact ⟨_, rfl, hns⟩
        · simp only [if_true, List.cons_append, List.nil_append] at he
          rw [List.mem_cons] at he
          cases he with
          | inl he => subst he; exact ⟨_, rfl, hns⟩
          | inr he =>
            rw [List.mem_cons] at he
            cases he with
            | inl he => subst he; exact ⟨_, rfl, hne⟩
            | inr he => exact ih _ e he
      · simp only [Bool.false_eq_true, if_false, if_true] at he
        simp at he
        subst he
        exact ⟨_, rfl, hfe⟩
      · simp only [if_true] at he
        cases hne : leHorizon (wake + cfg.minWakeWindowMin * msMin +
            cfg.expectedNapDurationMin * msMin) hor <;> rw [hne] at he
        · simp only [Bool.false_eq_true, if_false] at he
          simp at he
          cases he with
          | inl he => subst he; exact ⟨_, rfl, hfe⟩
          | inr he => subst he; exact ⟨_, rfl, hns⟩
        · simp only [if_true, List.cons_append, List.nil_append] at he
          rw [List.mem_cons] at he
          cases he with
          | inl he => subst he; exact ⟨_, rfl, hfe⟩
          | inr he =>
            rw [List.mem_cons] at he
            cases he with
            | inl he => subst he; exact ⟨_, rfl, hns⟩
            | inr he =>
              rw [List.mem_cons] at he
              cases he with
              | inl he => subst he; exact ⟨_, rfl, hne⟩
              | inr he => exact ih _ e he

/-- C7.  Baseline synthesis: with a far-enough horizon, the synthesized
stream is exactly eight full cycles — each containing a `MilkGiven` at
`wake + feedIntervalMinMin`, a `NapStarted` at `wake + minWakeWindowMin`
and a `NapEnded` at `napStart + expectedNapDurationMin`, repeating from
each new wake point (conjunct 1), so every one of the eight cycles contains
its synthesized feed event (conjunct 2); in general at most `8` cycles of
three events are produced (conjunct 3) and no synthesized instant exceeds
the horizon (conjunct 4). -/
theorem c7_baseline_cycles (cfg : ConstraintConfig) (fw h : Int)
    (hf : 0 ≤ cfg.feedIntervalMinMin) (hw : 0 < cfg.minWakeWindowMin)
    (hn : 0 < cfg.expectedNapDurationMin)
    (hfar : fw + 8 * cycleLenMs cfg + cfg.feedIntervalMinMin * msMin ≤ h) :
    buildBaselineEvents cfg fw (some h) = baselineClosed cfg 8 fw ∧
    (∀ k : Nat, k < 8 →
      mkAutoFeed (fw + (k : Int) * cycleLenMs cfg +
          cfg.feedIntervalMinMin * msMin) ∈
        buildBaselineEvents cfg fw (some h)) ∧
    (∀ hor fw', (buildBaselineEvents cfg fw' hor).length ≤ 3 * 8) ∧
    (∀ hor fw', ∀ e ∈ buildBaselineEvents cfg fw' hor,
      ∃ t, e.ts = some t ∧ leHorizon t hor = true) := by
  have hclosed : buildBaselineEvents cfg fw (some h) = baselineClosed cfg 8 fw :=
    buildBaselineLoop_closed cfg h hf hw hn 8 fw (by push_cast; linarith)
  refine ⟨hclosed, ?_, ?_, ?_⟩
  · intro k hk
    rw [hclosed]
    refine baselineClosed_mem_cycle cfg 8 k fw hk _ ?_
    unfold baselineCycle
    simp [add_assoc]
  · intro hor fw'
    exact buildBaselineLoop_length cfg hor 8 fw'
  · intro hor fw'
    exact buildBaselineLoop_le_horizon cfg hor 8 fw'

/-- C7 witness: the concrete configuration, first wake 0, horizon 100 h. -/
theorem c7_witness :
    buildBaselineEvents cfgW 0 (some 360000000) = baselineClosed cfgW 8 0 ∧
    mkAutoFeed ((0 : Int) + (7 : Nat) * cycleLenMs cfgW +
        cfgW.feedIntervalMinMin * msMin) ∈
      buildBaselineEvents cfgW 0 (some 360000000) := by
  have h := c7_baseline_cycles cfgW 0 360000000 (by norm_num [cfgW])
    (by norm_num [cfgW]) (by norm_num [cfgW])
    (by norm_num [cfgW, cycleLenMs, msMin])
  exact ⟨h.1, h.2.1 7 (by norm_num)⟩

/-! ## Normalizer purity in the ambient zone: claim C9 -/

theorem cleaned_any_isFA {log : List CareEvent}
    (h : ∃ e ∈ log, isFA e = true) : (cleanedOf log).any isFA = true := by
  rcases h with ⟨e, he, hfa⟩
  unfold cleanedOf
  rw [List.any_eq_true]
  cases hrfa : (sortEvents log).any isRealFA with
  | true =>
    rcases List.any_eq_true.mp hrfa with ⟨r, hr, hrreal⟩
    have hparts : isFA r = true ∧ r.autoPredicted = false := by
      unfold isRealFA at hrreal
      constructor
      · exact (Bool.and_eq_true _ _).mp hrreal |>.1
      · have := (Bool.and_eq_true _ _).mp hrreal |>.2
        cases hap : r.autoPredicted
        · rfl
        · rw [hap] at this; cases this
    refine ⟨r, ?_, hparts.1⟩
    apply List.mem_filter.mpr
    refine ⟨hr, ?_⟩
    rw [hrfa, hparts.2]
    simp
  | false =>
    refine ⟨e, ?_, hfa⟩
    apply List.mem_filter.mpr
    refine ⟨mem_sortEvents.mpr he, ?_⟩
    rw [hrfa]
    simp

/-- C9 counterexample.  The Normalizer's day-start synthesis consults the
*ambient* host time zone (`resolveTimeZone()` inside `getDayStartUtc`),
which is not one of its explicit parameters: two runs over identical
explicit inputs (empty log, same suppression list, same "now" =
2024-01-01T12:00Z) with different host zones (UTC vs fixed UTC+1) produce
different operational-day starts and different normalized logs. -/
theorem c9_counterexample :
    getDayStartUtc zonedUTC 1704110400000 ≠
      getDayStartUtc zonedPlusOne 1704110400000 ∧
    normalizeEventLog zonedUTC cfgW [] 1704110400000 [] ≠
      normalizeEventLog zonedPlusOne cfgW [] 1704110400000 [] := by
  constructor
  · decide
  · decide

/-- C9 amended: `normalizeEventLog` is a pure function of the event log,
suppression list, "now", *and the ambient zone service*; the ambient zone
is consulted only to synthesize a day-start `FirstAwake`, so whenever the
log already contains any `FirstAwake` event the output is independent of
the ambient host zone. -/
theorem c9_amended_zone_independence (z1 z2 : Int → Civil)
    (cfg : ConstraintConfig) (log : List CareEvent) (now : Int)
    (sup : List SuppressionEntry) (hFA : ∃ e ∈ log, isFA e = true) :
    normalizeEventLog z1 cfg log now sup =
      normalizeEventLog z2 cfg log now sup := by
  have hw : withFirstAwakeOf z1 log now = withFirstAwakeOf z2 log now := by
    simp only [withFirstAwakeOf]
    rw [cleaned_any_isFA hFA]
    simp
  unfold normalizeEventLog
  rw [hw]

/-- C9 amended witness: a log holding a real `FirstAwake` normalizes
identically under the UTC and UTC+1 ambient zones. -/
theorem c9_amended_witness :
    normalizeEventLog zonedUTC cfgW [⟨"f", .FirstAwake, some 0, false⟩]
        3600000 [] =
      normalizeEventLog zonedPlusOne cfgW [⟨"f", .FirstAwake, some 0, false⟩]
        3600000 [] :=
  c9_amended_zone_independence zonedUTC zonedPlusOne cfgW
    [⟨"f", .FirstAwake, some 0, false⟩] 3600000 []
    ⟨⟨"f", .FirstAwake, some 0, false⟩, by decide, by decide⟩

/-! ## Suppression honored: claim C1 -/

theorem mem_mergeBaseline (sup : List SuppressionEntry) :
    ∀ (cs acc : List CareEvent) (x : CareEvent),
      x ∈ mergeBaseline sup acc cs →
      x ∈ acc ∨ (x ∈ cs ∧ ∃ t, x.ts = some t ∧
        isSuppressedAuto sup x.type t = false) := by
  intro cs
  induction cs with
  | nil => exact fun acc x hx => Or.inl hx
  | cons c cs ih =>
    intro acc x hx
    unfold mergeBaseline at hx
    split at hx
    · rcases ih acc x hx with h | ⟨h1, h2⟩
      · exact Or.inl h
      · exact Or.inr ⟨List.mem_cons_of_mem c h1, h2⟩
    · rename_i t hts
      split at hx
      · rcases ih acc x hx with h | ⟨h1, h2⟩
        · exact Or.inl h
        · exact Or.inr ⟨List.mem_cons_of_mem c h1, h2⟩
      · rename_i hsup
        split at hx
        · rcases ih acc x hx with h | ⟨h1, h2⟩
          · exact Or.inl h
          · exact Or.inr ⟨List.mem_cons_of_mem c h1, h2⟩
        · rcases ih (acc ++ [c]) x hx with h | ⟨h1, h2⟩
          · rcases List.mem_append.mp h with h | h
            · exact Or.inl h
            · have hxc : x = c := by simpa using h
              subst hxc
              refine Or.inr ⟨List.mem_cons_self x cs, t, hts, ?_⟩
              cases hs : isSuppressedAuto sup x.type t
              · rfl
              · exact absurd hs hsup
          · exact Or.inr ⟨List.mem_cons_of_mem c h1, h2⟩

theorem mem_withFirstAwakeOf {zoned : Int → Civil} {log : List CareEvent}
    {now : Int} {e : CareEvent} (h : e ∈ withFirstAwakeOf zoned log now) :
    e ∈ log ∨ e.type = EventType.FirstAwake := by
  simp only [withFirstAwakeOf] at h
  have hclean : ∀ x : CareEvent, x ∈ cleanedOf log → x ∈ log := by
    intro x hx
    unfold cleanedOf at hx
    exact mem_sortEvents.mp (List.mem_of_mem_filter hx)
  split at h
  · exact Or.inl (hclean e h)
  · rcases List.mem_append.mp h with h | h
    · exact Or.inl (hclean e h)
    · have he : e = mkAutoFirstAwake (getDayStartUtc zoned now) := by simpa using h
      subst he
      exact Or.inr rfl

/-- C1.  Suppression honored: for every log, suppression list containing a
`MilkGiven` entry at time `T`, and every "now", any event of the normalized
log that the Normalizer itself added (it is not in the input log) and has
type `MilkGiven` lies strictly outside the 20-minute tolerance of `T`; as
the statement quantifies over "now", a suppressed synthesized feed is never
reintroduced at any later "now". -/
theorem c1_suppression_honored (zoned : Int → Civil)
    (cfg : ConstraintConfig) (log : List CareEvent) (now : Int)
    (sup : List SuppressionEntry) (T : Int) (e : CareEvent) (t : Int)
    (hsup : (⟨.MilkGiven, some T⟩ : SuppressionEntry) ∈ sup)
    (hmem : e ∈ normalizeEventLog zoned cfg log now sup)
    (hnot : e ∉ log) (hty : e.type = .MilkGiven) (hts : e.ts = some t) :
    ¬(|t - T| ≤ tolMs) := by
  intro habs
  simp only [normalizeEventLog] at hmem
  have hFAty : e.type ≠ EventType.FirstAwake := by
    rw [hty]
    intro hcon
    cases hcon
  split at hmem
  · rcases mem_withFirstAwakeOf (mem_sortEvents.mp hmem) with h | h
    · exact hnot h
    · exact hFAty h
  · rename_i firstWake hfind
    split at hmem
    · rcases mem_withFirstAwakeOf (mem_sortEvents.mp hmem) with h | h
      · exact hnot h
      · exact hFAty h
    · rcases mem_mergeBaseline sup _ _ e (mem_sortEvents.mp hmem) with
        h | ⟨h1, t', hts', hnosup⟩
      · rcases mem_withFirstAwakeOf h with h | h
        · exact hnot h
        · exact hFAty h
      · have htt : t' = t := by
          rw [hts] at hts'
          exact (Option.some_inj.mp hts').symm
        subst htt
        have hsupTrue : isSuppressedAuto sup e.type t' = true := by
          unfold isSuppressedAuto
          rw [List.any_eq_true]
          refine ⟨⟨.MilkGiven, some T⟩, hsup, ?_⟩
          rw [hty]
          rw [if_neg (by intro hcon; exact hcon rfl)]
          have habs2 : |T - t'| ≤ tolMs := by
            rw [abs_sub_comm]
            exact habs
          simp [habs2]
        rw [hsupTrue] at hnosup
        cases hnosup

/-- C1 witness: with a real `FirstAwake` at 0 and a real `SolidsGiven` at
600 min, the suppression entry `MilkGiven @ 120 min` blocks the first
cycle's feed; the second cycle's synthesized feed (255 min) is added and
the theorem puts it outside the 20-minute window of the suppressed time. -/
theorem c1_witness :
    (⟨EventType.MilkGiven, some 7200000⟩ : SuppressionEntry) ∈
        [(⟨EventType.MilkGiven, some 7200000⟩ : SuppressionEntry)] ∧
    mkAutoFeed 15300000 ∈
      normalizeEventLog zonedUTC cfgW
        [⟨"f", .FirstAwake, some 0, false⟩,
         ⟨"s", .SolidsGiven, some 36000000, false⟩] 36000000
        [⟨EventType.MilkGiven, some 7200000⟩] ∧
    ¬(|(15300000 : Int) - 7200000| ≤ tolMs) := by
  refine ⟨by decide, by decide, ?_⟩
  exact c1_suppression_honored zonedUTC cfgW
    [⟨"f", .FirstAwake, some 0, false⟩,
     ⟨"s", .SolidsGiven, some 36000000, false⟩] 36000000
    [⟨EventType.MilkGiven, some 7200000⟩] 7200000 (mkAutoFeed 15300000)
    15300000 (by decide) (by decide) (by decide) (by decide) (by decide)

/-! ## Projector outputs while asleep: claim C8 -/

/-- C8 counterexample.  A state that is currently asleep (nap started, no
end) with a known last wake time, 200 minutes after waking: contrary to the
claim, `computeOutputs` reports a *non-null* wake-window utilization (it is
computed before the asleep override and never cleared), and — because the
rounded awake time exceeds the max wake window — the stand-alone
`if (awakeMin > maxWake)` override refills the category lists after the
asleep branch empties them.  The window/hard-stop fields are null as
claimed. -/
theorem c8_counterexample :
    currentlyAsleepB st8 = true ∧
    (computeOutputs zonedUTC (fun _ => "") st8 13000000 cfgW).wakeUtilization ≠
      none ∧
    (computeOutputs zonedUTC (fun _ => "") st8 13000000 cfgW).windowAllowed ≠
      [] ∧
    (computeOutputs zonedUTC (fun _ => "") st8 13000000 cfgW).nextWindow =
      none := by
  refine ⟨rfl, ?_, ?_, ?_⟩
  · decide
  · decide
  · decide

/-- C8 amended: while the currently-asleep condition holds, the
window/hard-stop fields (`nextWindow`, `nextHardStop`, the three UTC
fields, `wakeWindowRemainingMin`) are null; the four category lists are
empty exactly when a last wake time is truthy and the rounded awake time
does not exceed the (possibly shortened) max wake window — when the awake
time exceeds it, the minimal-stimulation override lists are returned, and
when no wake time is known the not-yet-calibrated lists are returned; the
wake-window utilization is not nulled by sleep: it is the clamped
`awakeMin / maxWake` whenever a last wake time is truthy, and null only
otherwise. -/
theorem c8_amended_asleep_outputs (zoned : Int → Civil) (fmt : Int → String)
    (state : CoreState) (now : Int) (cfg : ConstraintConfig)
    (h : currentlyAsleepB state = true) :
    (computeOutputs zoned fmt state now cfg).nextWindow = none ∧
    (computeOutputs zoned fmt state now cfg).nextHardStop = none ∧
    (computeOutputs zoned fmt state now cfg).nextWindowStartUtc = none ∧
    (computeOutputs zoned fmt state now cfg).nextWindowEndUtc = none ∧
    (computeOutputs zoned fmt state now cfg).nextHardStopUtc = none ∧
    (computeOutputs zoned fmt state now cfg).wakeWindowRemainingMin = none ∧
    (truthy state.lastWakeTime = true →
      ((awakeBranchOf zoned state now cfg (state.lastWakeTime.getD 0)).awakeMin ≤
          (awakeBranchOf zoned state now cfg (state.lastWakeTime.getD 0)).maxWake →
        (computeOutputs zoned fmt state now cfg).windowAllowed = [] ∧
        (computeOutputs zoned fmt state now cfg).windowSuppressed = [] ∧
        (computeOutputs zoned fmt state now cfg).activityAllowed = [] ∧
        (computeOutputs zoned fmt state now cfg).activitySuppressed = []) ∧
      ((awakeBranchOf zoned state now cfg (state.lastWakeTime.getD 0)).awakeMin >
          (awakeBranchOf zoned state now cfg (state.lastWakeTime.getD 0)).maxWake →
        (computeOutputs zoned fmt state now cfg).windowAllowed =
          ["Regulation / low stimulation"] ∧
        (computeOutputs zoned fmt state now cfg).windowSuppressed =
          ["High stimulation", "New novel activities", "Outdoor light"] ∧
        (computeOutputs zoned fmt state now cfg).activityAllowed ≠ [] ∧
        (computeOutputs zoned fmt state now cfg).activitySuppressed ≠ []) ∧
      (computeOutputs zoned fmt state now cfg).wakeUtilization =
        some (min 1 (max 0
          (((awakeBranchOf zoned state now cfg (state.lastWakeTime.getD 0)).awakeMin : ℚ) /
            ((awakeBranchOf zoned state now cfg (state.lastWakeTime.getD 0)).maxWake : ℚ))))) ∧
    (truthy state.lastWakeTime = false →
      (computeOutputs zoned fmt state now cfg).windowAllowed =
        ["Log first awake"] ∧
      (computeOutputs zoned fmt state now cfg).wakeUtilization = none) := by
  cases htr : truthy state.lastWakeTime with
  | true =>
    refine ⟨?_, ?_, ?_, ?_, ?_, ?_, ?_, ?_⟩
    · simp [computeOutputs, htr, h]
    · simp [computeOutputs, htr, h]
    · simp [computeOutputs, htr, h]
    · simp [computeOutputs, htr, h]
    · simp [computeOutputs, htr, h]
    · simp [computeOutputs, htr, h]
    · intro _
      refine ⟨?_, ?_, ?_⟩
      · intro hle
        simp [computeOutputs, htr, h, awakeCategories, not_lt.mpr hle]
      · intro hgt
        simp [computeOutputs, htr, h, awakeCategories, hgt]
      · simp [computeOutputs, htr, h]
    · intro hcon
      cases hcon
  | false =>
    refine ⟨?_, ?_, ?_, ?_, ?_, ?_, ?_, ?_⟩
    · simp [computeOutputs, htr, h]
    · simp [computeOutputs, htr, h]
    · simp [computeOutputs, htr, h]
    · simp [computeOutputs, htr, h]
    · simp [computeOutputs, htr, h]
    · simp [computeOutputs, htr, h]
    · intro hcon
      cases hcon
    · intro _
      constructor
      · simp [computeOutputs, htr, h]
      · simp [computeOutputs, htr, h]

/-- C8 amended witness: the counterexample state instantiates the amended
description (asleep, wake known, awake time beyond the max window). -/
theorem c8_amended_witness :
    (computeOutputs zonedUTC (fun _ => "") st8 13000000 cfgW).nextWindow =
      none ∧
    (computeOutputs zonedUTC (fun _ => "") st8 13000000 cfgW).windowAllowed =
      ["Regulation / low stimulation"] ∧
    (computeOutputs zonedUTC (fun _ => "") st8 13000000 cfgW).wakeUtilization =
      some (min 1 (max 0
        (((awakeBranchOf zonedUTC st8 13000000 cfgW (st8.lastWakeTime.getD 0)).awakeMin : ℚ) /
          ((awakeBranchOf zonedUTC st8 13000000 cfgW (st8.lastWakeTime.getD 0)).maxWake : ℚ)))) := by
  have h := c8_amended_asleep_outputs zonedUTC (fun _ => "") st8 13000000 cfgW rfl
  have h7 := h.2.2.2.2.2.2.1 rfl
  refine ⟨h.1, ?_, h7.2.2⟩
  exact (h7.2.1 (by decide)).1

/-! ## Idempotence of the Normalizer: claim C2 -/

/-- Every synthesized baseline event is one of the three auto shapes. -/
theorem baseline_shape (cfg : ConstraintConfig) (hor : Option Int) :
    ∀ (fuel : Nat) (wake : Int), ∀ e ∈ buildBaselineLoop cfg hor fuel wake,
      (∃ t, e = mkAutoFeed t) ∨ (∃ t, e = mkAutoNapStart t) ∨
        (∃ t, e = mkAutoNapEnd t) := by
  intro fuel
  induction fuel with
  | zero => intro wake e he; cases he
  | succ fuel ih =>
    intro wake e he
    unfold buildBaselineLoop at he
    cases hlt : ltHorizon wake hor <;> rw [hlt] at he
    · simp at he
    · simp only [if_true] at he
      cases hfe : leHorizon (wake + cfg.feedIntervalMinMin * msMin) hor <;>
        rw [hfe] at he <;>
        cases hns : leHorizon (wake + cfg.minWakeWindowMin * msMin) hor <;>
          rw [hns] at he
      · simp at he
      · simp only [Bool.false_eq_true, if_false, if_true] at he
        cases hne : leHorizon (wake + cfg.minWakeWindowMin * msMin +
            cfg.expectedNapDurationMin * msMin) hor <;> rw [hne] at he
        · simp only [Bool.false_eq_true, if_false] at he
          simp at he
          subst he
          exact Or.inr (Or.inl ⟨_, rfl⟩)
        · simp only [if_true, List.cons_append, List.nil_append] at he
          rw [List.mem_cons] at he
          rcases he with he | he
          · subst he; exact Or.inr (Or.inl ⟨_, rfl⟩)
          · rw [List.mem_cons] at he
            rcases he with he | he
            · subst he; exact Or.inr (Or.inr ⟨_, rfl⟩)
            · exact ih _ e he
      · simp only [Bool.false_eq_true, if_false, if_true] at he
        simp at he
        subst he
        exact Or.inl ⟨_, rfl⟩
      · simp only [if_true] at he
        cases hne : leHorizon (wake + cfg.minWakeWindowMin * msMin +
            cfg.expectedNapDurationMin * msMin) hor <;> rw [hne] at he
        · simp only [Bool.false_eq_true, if_false] at he
          simp at he
          cases he with
          | inl he => subst he; exact Or.inl ⟨_, rfl⟩
          | inr he => subst he; exact Or.inr (Or.inl ⟨_, rfl⟩)
        · simp only [if_true, List.cons_append, List.nil_append] at he
          rw [List.mem_cons] at he
          rcases he with he | he
          · subst he; exact Or.inl ⟨_, rfl⟩
          · rw [List.mem_cons] at he
            rcases he with he | he
            · subst he; exact Or.inr (Or.inl ⟨_, rfl⟩)
            · rw [List.mem_cons] at he
              rcases he with he | he
              · subst he; exact Or.inr (Or.inr ⟨_, rfl⟩)
              · exact ih _ e he

theorem baseline_auto_nonFA {cfg : ConstraintConfig} {hor : Option Int}
    {fuel : Nat} {wake : Int} {e : CareEvent}
    (he : e ∈ buildBaselineLoop cfg hor fuel wake) :
    e.autoPredicted = true ∧ e.type ≠ EventType.FirstAwake ∧
      realFilter e = false ∧ isFA e = false := by
  rcases baseline_shape cfg hor fuel wake e he with ⟨t, rfl⟩ | ⟨t, rfl⟩ | ⟨t, rfl⟩
  · refine ⟨rfl, ?_, rfl, rfl⟩
    intro hcon
    cases hcon
  · refine ⟨rfl, ?_, rfl, rfl⟩
    intro hcon
    cases hcon
  · refine ⟨rfl, ?_, rfl, rfl⟩
    intro hcon
    cases hcon

theorem baseline_parsed {cfg : ConstraintConfig} {hor : Option Int}
    {fuel : Nat} {wake : Int} {e : CareEvent}
    (he : e ∈ buildBaselineLoop cfg hor fuel wake) : e.ts ≠ none := by
  rcases baseline_shape cfg hor fuel wake e he with ⟨t, rfl⟩ | ⟨t, rfl⟩ | ⟨t, rfl⟩
  · intro hcon; cases hcon
  · intro hcon; cases hcon
  · intro hcon; cases hcon

/-- `mergeBaseline` only ever appends to its accumulator. -/
theorem mergeBaseline_eq_append (sup : List SuppressionEntry) :
    ∀ (cs acc : List CareEvent), ∃ A, mergeBaseline sup acc cs = acc ++ A ∧
      ∀ x ∈ A, x ∈ cs := by
  intro cs
  induction cs with
  | nil => exact fun acc => ⟨[], by simp [mergeBaseline]⟩
  | cons c cs ih =>
    intro acc
    unfold mergeBaseline
    split
    · rcases ih acc with ⟨A, hA, hsub⟩
      exact ⟨A, hA, fun x hx => List.mem_cons_of_mem c (hsub x hx)⟩
    · split
      · rcases ih acc with ⟨A, hA, hsub⟩
        exact ⟨A, hA, fun x hx => List.mem_cons_of_mem c (hsub x hx)⟩
      · split
        · rcases ih acc with ⟨A, hA, hsub⟩
          exact ⟨A, hA, fun x hx => List.mem_cons_of_mem c (hsub x hx)⟩
        · rcases ih (acc ++ [c]) with ⟨A, hA, hsub⟩
          refine ⟨c :: A, by rw [hA]; simp, ?_⟩
          intro x hx
          rw [List.mem_cons] at hx
          rcases hx with hx | hx
          · subst hx; exact List.mem_cons_self x cs
          · exact List.mem_cons_of_mem c (hsub x hx)

theorem hasMatch_append {acc A : List CareEvent} {ty : EventType} {t : Int}
    (h : hasMatchingEvent acc ty t = true) :
    hasMatchingEvent (acc ++ A) ty t = true := by
  unfold hasMatchingEvent at *
  rw [List.any_eq_true] at h ⊢
  rcases h with ⟨x, hx, hp⟩
  exact ⟨x, List.mem_append_left A hx, hp⟩

theorem hasMatch_mergeBaseline {sup : List SuppressionEntry}
    {acc cs : List CareEvent} {ty : EventType} {t : Int}
    (h : hasMatchingEvent acc ty t = true) :
    hasMatchingEvent (mergeBaseline sup acc cs) ty t = true := by
  rcases mergeBaseline_eq_append sup cs acc with ⟨A, hA, -⟩
  rw [hA]
  exact hasMatch_append h

/-- After the merge, every non-suppressed parseable candidate has a match
in the result (either it was skipped because a match already existed, or it
was itself added). -/
theorem mergeBaseline_match_invariant (sup : List SuppressionEntry) :
    ∀ (cs acc : List CareEvent), ∀ c ∈ cs, ∀ t : Int, c.ts = some t →
      isSuppressedAuto sup c.type t = false →
      hasMatchingEvent (mergeBaseline sup acc cs) c.type t = true := by
  intro cs
  induction cs with
  | nil => intro acc c hc; cases hc
  | cons c0 cs ih =>
    intro acc c hc t hts hns
    rw [List.mem_cons] at hc
    unfold mergeBaseline
    rcases hc with hc | hc
    · subst hc
      split
      · rename_i hnone
        rw [hnone] at hts
        cases hts
      · rename_i t' hts'
        have ht' : t' = t := by
          rw [hts] at hts'
          exact (Option.some_inj.mp hts').symm
        subst ht'
        rw [if_neg (by rw [hns]; intro hcon; cases hcon)]
        split
        · rename_i hm
          exact hasMatch_mergeBaseline hm
        · refine hasMatch_mergeBaseline ?_
          unfold hasMatchingEvent
          rw [List.any_eq_true]
          refine ⟨c, List.mem_append_right acc (List.mem_singleton.mpr rfl), ?_⟩
          rw [if_neg (by intro hcon; exact hcon rfl)]
          rw [hts]
          simp [tolMs, msMin]
    · split
      · exact ih acc c hc t hts hns
      · split
        · exact ih acc c hc t hts hns
        · split
          · exact ih acc c hc t hts hns
          · exact ih (acc ++ [c0]) c hc t hts hns

/-- If every parseable candidate is suppressed or already matched in the
accumulator, the merge is a no-op. -/
theorem mergeBaseline_noop (sup : List SuppressionEntry) :
    ∀ (cs acc : List CareEvent),
      (∀ c ∈ cs, ∀ t : Int, c.ts = some t →
        isSuppressedAuto sup c.type t = true ∨
          hasMatchingEvent acc c.type t = true) →
      mergeBaseline sup acc cs = acc := by
  intro cs
  induction cs with
  | nil => intro acc _; rfl
  | cons c cs ih =>
    intro acc hall
    have hrec : mergeBaseline sup acc cs = acc :=
      ih acc (fun c' hc' t' hts' => hall c' (List.mem_cons_of_mem c hc') t' hts')
    unfold mergeBaseline
    split
    · exact hrec
    · rename_i t hts
      rcases hall c (List.mem_cons_self c cs) t hts with hs | hm
      · rw [if_pos hs]
        exact hrec
      · by_cases hs : isSuppressedAuto sup c.type t = true
        · rw [if_pos hs]
          exact hrec
        · rw [if_neg hs, if_pos hm]
          exact hrec

theorem baselineEvents_parsed {cfg : ConstraintConfig} {f : Int}
    {hor : Option Int} {e : CareEvent}
    (he : e ∈ buildBaselineEvents cfg f hor) : e.ts ≠ none := by
  unfold buildBaselineEvents at he
  exact baseline_parsed he

theorem baselineEvents_auto_nonFA {cfg : ConstraintConfig} {f : Int}
    {hor : Option Int} {e : CareEvent}
    (he : e ∈ buildBaselineEvents cfg f hor) :
    e.autoPredicted = true ∧ e.type ≠ EventType.FirstAwake ∧
      realFilter e = false ∧ isFA e = false := by
  unfold buildBaselineEvents at he
  exact baseline_auto_nonFA he

theorem mem_cleanedOf_sub {log : List CareEvent} {e : CareEvent}
    (he : e ∈ cleanedOf log) : e ∈ sortEvents log := by
  simp only [cleanedOf] at he
  exact List.mem_of_mem_filter he

theorem allParsed_cleanedOf {log : List CareEvent} (h : allParsed log) :
    allParsed (cleanedOf log) :=
  fun e he => allParsed_sortEvents h e (mem_cleanedOf_sub he)

theorem sorted_cleanedOf {log : List CareEvent} (h : allParsed log) :
    (cleanedOf log).Sorted evLe := by
  simp only [cleanedOf]
  exact (sorted_sortEvents_parsed h).filter _

theorem allParsed_withFirstAwakeOf {zoned : Int → Civil}
    {log : List CareEvent} {now : Int} (h : allParsed log) :
    allParsed (withFirstAwakeOf zoned log now) := by
  simp only [withFirstAwakeOf]
  split
  · exact allParsed_cleanedOf h
  · refine allParsed_append (allParsed_cleanedOf h) ?_
    intro e he
    rw [List.mem_singleton] at he
    subst he
    intro hcon
    cases hcon

theorem allParsed_mergeBaseline {sup : List SuppressionEntry}
    {acc cs : List CareEvent} (hacc : allParsed acc) (hcs : allParsed cs) :
    allParsed (mergeBaseline sup acc cs) := by
  rcases mergeBaseline_eq_append sup cs acc with ⟨A, hA, hsub⟩
  rw [hA]
  exact allParsed_append hacc (fun e he => hcs e (hsub e he))

/-- Sorting the merge of an accumulator with candidates on which `p` is
false does not change the `p`-filtered part, provided the accumulator's
`p`-filtered part is already sorted. -/
theorem filter_sort_merge (p : CareEvent → Bool)
    (sup : List SuppressionEntry) {w B : List CareEvent}
    (hw : allParsed w) (hB : allParsed B)
    (hsorted : (w.filter p).Sorted evLe) (hpB : ∀ x ∈ B, p x = false) :
    (sortEvents (mergeBaseline sup w B)).filter p = w.filter p := by
  rcases mergeBaseline_eq_append sup B w with ⟨A, hA, hsub⟩
  have hpm : allParsed (mergeBaseline sup w B) :=
    allParsed_mergeBaseline hw hB
  rw [filter_sortEvents_parsed p hpm, hA, List.filter_append]
  rw [show A.filter p = [] from List.filter_eq_nil_iff.mpr
    (fun a ha hcon => by rw [hpB a (hsub a ha)] at hcon; cases hcon)]
  rw [List.append_nil]
  exact sortEvents_eq_of_sorted hsorted

theorem horizonOf_congr {l₁ l₂ : List CareEvent} (now : Int)
    (h : l₁.filter realFilter = l₂.filter realFilter) :
    horizonOf l₁ now = horizonOf l₂ now := by
  simp only [horizonOf, h]

/-- When a `FirstAwake` with a parseable timestamp is found,
`normalizeEventLog` reduces to sorting the merge of the
first-awake-completed log with the synthesized baseline events. -/
theorem normalizeEventLog_eq_merge {zoned : Int → Civil}
    {cfg : ConstraintConfig} {log : List CareEvent} {now : Int}
    {sup : List SuppressionEntry} {fw : CareEvent} {ft : Int}
    (hfind : (withFirstAwakeOf zoned log now).find? isFA = some fw)
    (hts : fw.ts = some ft) :
    normalizeEventLog zoned cfg log now sup =
      sortEvents (mergeBaseline sup (withFirstAwakeOf zoned log now)
        (buildBaselineEvents cfg ft
          (horizonOf (withFirstAwakeOf zoned log now) now))) := by
  simp only [normalizeEventLog]
  split
  · rename_i hnone
    rw [hfind] at hnone
    exact Option.noConfusion hnone
  · rename_i firstWake hfind'
    rw [hfind] at hfind'
    injection hfind' with hfw
    subst hfw
    split
    · rename_i hnone
      rw [hts] at hnone
      exact Option.noConfusion hnone
    · rename_i ftu hts'
      rw [hts] at hts'
      injection hts' with hft
      subst hft
      rfl

/-- C2.  Idempotence under a fixed "now": `normalizeEventLog` applied to
its own output — with the same ambient zone service, configuration, "now"
and suppression list — returns it unchanged.  The statement carries the
faithfulness hypothesis that every timestamp of the input log parses: on
such logs the sort comparator is consistent, so the embedded sort computes
exactly what the program's `Array.prototype.sort` does, whereas a log with
an unparseable (`NaN`) timestamp makes the comparator inconsistent and
ECMAScript leaves the resulting order — and hence the normalizer's output —
implementation-defined. -/
theorem c2_idempotent (zoned : Int → Civil) (cfg : ConstraintConfig)
    (log : List CareEvent) (now : Int) (sup : List SuppressionEntry)
    (hp : allParsed log) :
    normalizeEventLog zoned cfg (normalizeEventLog zoned cfg log now sup)
        now sup =
      normalizeEventLog zoned cfg log now sup := by
  have hpw : allParsed (withFirstAwakeOf zoned log now) :=
    allParsed_withFirstAwakeOf hp
  have hwcases : (withFirstAwakeOf zoned log now = cleanedOf log ∧
        (cleanedOf log).any isFA = true) ∨
      (withFirstAwakeOf zoned log now =
          cleanedOf log ++ [mkAutoFirstAwake (getDayStartUtc zoned now)] ∧
        (cleanedOf log).any isFA = false) := by
    cases hAny : (cleanedOf log).any isFA with
    | false =>
      refine Or.inr ⟨?_, rfl⟩
      simp only [withFirstAwakeOf]
      rw [if_neg (by simp [hAny])]
    | true =>
      refine Or.inl ⟨?_, rfl⟩
      simp only [withFirstAwakeOf]
      rw [if_pos hAny]
  have hFAex : ∃ e ∈ withFirstAwakeOf zoned log now, isFA e = true := by
    rcases hwcases with ⟨hw, hAny⟩ | ⟨hw, hAny⟩
    · rw [hw]
      exact List.any_eq_true.mp hAny
    · rw [hw]
      exact ⟨mkAutoFirstAwake (getDayStartUtc zoned now),
        List.mem_append_right _ (List.mem_singleton.mpr rfl), rfl⟩
  have hfindex : ∃ fw, (withFirstAwakeOf zoned log now).find? isFA =
      some fw := by
    cases hf : (withFirstAwakeOf zoned log now).find? isFA with
    | none =>
      exfalso
      rcases hFAex with ⟨e, he, hFAe⟩
      exact absurd hFAe (by simpa using List.find?_eq_none.mp hf e he)
    | some fw => exact ⟨fw, rfl⟩
  obtain ⟨fw, hfind⟩ := hfindex
  have hfwmem : fw ∈ withFirstAwakeOf zoned log now :=
    List.mem_of_find?_eq_some hfind
  obtain ⟨ft, hts⟩ := Option.ne_none_iff_exists'.mp (hpw fw hfwmem)
  have hN : normalizeEventLog zoned cfg log now sup =
      sortEvents (mergeBaseline sup (withFirstAwakeOf zoned log now)
        (buildBaselineEvents cfg ft
          (horizonOf (withFirstAwakeOf zoned log now) now))) :=
    normalizeEventLog_eq_merge hfind hts
  have hpB : allParsed (buildBaselineEvents cfg ft
      (horizonOf (withFirstAwakeOf zoned log now) now)) :=
    fun e he => baselineEvents_parsed he
  have hpN : allParsed (normalizeEventLog zoned cfg log now sup) := by
    rw [hN]
    exact allParsed_sortEvents (allParsed_mergeBaseline hpw hpB)
  have hsortN : sortEvents (normalizeEventLog zoned cfg log now sup) =
      normalizeEventLog zoned cfg log now sup := by
    rw [hN]
    exact sortEvents_idem _
  have hmemN : ∀ x : CareEvent,
      x ∈ normalizeEventLog zoned cfg log now sup →
        x ∈ withFirstAwakeOf zoned log now ∨
          x ∈ buildBaselineEvents cfg ft
            (horizonOf (withFirstAwakeOf zoned log now) now) := by
    intro x hx
    rw [hN] at hx
    rcases mergeBaseline_eq_append sup
        (buildBaselineEvents cfg ft
          (horizonOf (withFirstAwakeOf zoned log now) now))
        (withFirstAwakeOf zoned log now) with ⟨A, hA, hsub⟩
    rw [hA] at hx
    rcases List.mem_append.mp (mem_sortEvents.mp hx) with h | h
    · exact Or.inl h
    · exact Or.inr (hsub x h)
  have hsorted_isFA :
      ((withFirstAwakeOf zoned log now).filter isFA).Sorted evLe := by
    rcases hwcases with ⟨hw, -⟩ | ⟨hw, hAny⟩
    · rw [hw]
      exact (sorted_cleanedOf hp).filter _
    · rw [hw, List.filter_append]
      rw [show (cleanedOf log).filter isFA = [] from
        List.filter_eq_nil_iff.mpr (fun a ha hcon =>
          absurd (List.any_eq_true.mpr ⟨a, ha, hcon⟩) (by simp [hAny]))]
      rw [List.nil_append, List.filter_cons_of_pos rfl, List.filter_nil]
      exact List.sorted_singleton _
  have hsorted_real :
      ((withFirstAwakeOf zoned log now).filter realFilter).Sorted evLe := by
    rcases hwcases with ⟨hw, -⟩ | ⟨hw, -⟩
    · rw [hw]
      exact (sorted_cleanedOf hp).filter _
    · rw [hw, List.filter_append]
      rw [List.filter_cons_of_neg (by simp [mkAutoFirstAwake, realFilter]),
        List.filter_nil, List.append_nil]
      exact (sorted_cleanedOf hp).filter _
  have hBisFA : ∀ x ∈ buildBaselineEvents cfg ft
      (horizonOf (withFirstAwakeOf zoned log now) now), isFA x = false :=
    fun x hx => (baselineEvents_auto_nonFA hx).2.2.2
  have hBreal : ∀ x ∈ buildBaselineEvents cfg ft
      (horizonOf (withFirstAwakeOf zoned log now) now),
        realFilter x = false :=
    fun x hx => (baselineEvents_auto_nonFA hx).2.2.1
  have hfisFA : (normalizeEventLog zoned cfg log now sup).filter isFA =
      (withFirstAwakeOf zoned log now).filter isFA := by
    rw [hN]
    exact filter_sort_merge isFA sup hpw hpB hsorted_isFA hBisFA
  have hfreal :
      (normalizeEventLog zoned cfg log now sup).filter realFilter =
        (withFirstAwakeOf zoned log now).filter realFilter := by
    rw [hN]
    exact filter_sort_merge realFilter sup hpw hpB hsorted_real hBreal
  have hfind2 : (normalizeEventLog zoned cfg log now sup).find? isFA =
      some fw := by
    rw [find?_eq_head?_filter isFA, hfisFA, ← find?_eq_head?_filter isFA]
    exact hfind
  have hhor2 : horizonOf (normalizeEventLog zoned cfg log now sup) now =
      horizonOf (withFirstAwakeOf zoned log now) now :=
    horizonOf_congr now hfreal
  have hclean2 : cleanedOf (normalizeEventLog zoned cfg log now sup) =
      normalizeEventLog zoned cfg log now sup := by
    simp only [cleanedOf]
    rw [hsortN]
    have hpt : ∀ a ∈ normalizeEventLog zoned cfg log now sup,
        (!(isFA a && a.autoPredicted &&
          (normalizeEventLog zoned cfg log now sup).any isRealFA)) =
            true := by
      intro a ha
      cases hFA2 : (normalizeEventLog zoned cfg log now sup).any isRealFA
        with
      | false => simp
      | true =>
        rcases List.any_eq_true.mp hFA2 with ⟨r, hrN, hrReal⟩
        rcases hmemN r hrN with hrw | hrB
        · rcases hwcases with ⟨hw, -⟩ | ⟨hw, hAny⟩
          · have hFA1 : (sortEvents log).any isRealFA = true := by
              rw [hw] at hrw
              exact List.any_eq_true.mpr ⟨r, mem_cleanedOf_sub hrw, hrReal⟩
            cases hbad : (isFA a && a.autoPredicted) with
            | false => simp [hbad]
            | true =>
              exfalso
              obtain ⟨hisFA, hauto⟩ : isFA a = true ∧
                  a.autoPredicted = true := by simpa using hbad
              rcases hmemN a ha with haw | haB
              · rw [hw] at haw
                simp only [cleanedOf] at haw
                have hpred := List.of_mem_filter haw
                simp [hisFA, hauto, hFA1] at hpred
              · have hcon := (baselineEvents_auto_nonFA haB).2.2.2
                rw [hisFA] at hcon
                exact Bool.noConfusion hcon
          · exfalso
            rw [hw] at hrw
            rcases List.mem_append.mp hrw with hr | hr
            · have hrFA : isFA r = true := by
                unfold isRealFA at hrReal
                simp at hrReal
                exact hrReal.1
              exact absurd (List.any_eq_true.mpr ⟨r, hr, hrFA⟩)
                (by simp [hAny])
            · have hr' : r = mkAutoFirstAwake (getDayStartUtc zoned now) :=
                by simpa using hr
              subst hr'
              unfold isRealFA at hrReal
              simp [mkAutoFirstAwake] at hrReal
        · have hauto := (baselineEvents_auto_nonFA hrB).1
          unfold isRealFA at hrReal
          simp [hauto] at hrReal
    exact List.filter_eq_self.mpr hpt
  have hfwFA : isFA fw = true := List.find?_some hfind
  have hanyN : (normalizeEventLog zoned cfg log now sup).any isFA = true :=
    List.any_eq_true.mpr ⟨fw, List.mem_of_find?_eq_some hfind2, hfwFA⟩
  have hw2 : withFirstAwakeOf zoned
      (normalizeEventLog zoned cfg log now sup) now =
      normalizeEventLog zoned cfg log now sup := by
    simp only [withFirstAwakeOf]
    rw [hclean2, if_pos hanyN]
  have hrun2 : normalizeEventLog zoned cfg
      (normalizeEventLog zoned cfg log now sup) now sup =
      sortEvents (mergeBaseline sup
        (withFirstAwakeOf zoned
          (normalizeEventLog zoned cfg log now sup) now)
        (buildBaselineEvents cfg ft
          (horizonOf (withFirstAwakeOf zoned
            (normalizeEventLog zoned cfg log now sup) now) now))) :=
    normalizeEventLog_eq_merge (by rw [hw2]; exact hfind2) hts
  have hnoop : mergeBaseline sup (normalizeEventLog zoned cfg log now sup)
      (buildBaselineEvents cfg ft
        (horizonOf (withFirstAwakeOf zoned log now) now)) =
      normalizeEventLog zoned cfg log now sup := by
    apply mergeBaseline_noop
    intro c hc t hcts
    cases hs : isSuppressedAuto sup c.type t with
    | true => exact Or.inl rfl
    | false =>
      refine Or.inr ?_
      have hm : hasMatchingEvent
          (mergeBaseline sup (withFirstAwakeOf zoned log now)
            (buildBaselineEvents cfg ft
              (horizonOf (withFirstAwakeOf zoned log now) now)))
          c.type t = true :=
        mergeBaseline_match_invariant sup _ _ c hc t hcts hs
      have hEq : hasMatchingEvent
          (normalizeEventLog zoned cfg log now sup) c.type t =
          hasMatchingEvent
            (mergeBaseline sup (withFirstAwakeOf zoned log now)
              (buildBaselineEvents cfg ft
                (horizonOf (withFirstAwakeOf zoned log now) now)))
            c.type t := by
        rw [hN]
        unfold hasMatchingEvent
        exact any_sortEvents _ _
      rw [hEq]
      exact hm
  rw [hrun2, hw2, hhor2, hnoop]
  exact hsortN

/-- C2 witness: idempotence at a concrete all-parseable log. -/
theorem c2_idempotent_witness :
    normalizeEventLog zonedUTC cfgW
        (normalizeEventLog zonedUTC cfgW
          [⟨"w", .FirstAwake, some 28800000, false⟩] 43200000 [])
        43200000 [] =
      normalizeEventLog zonedUTC cfgW
        [⟨"w", .FirstAwake, some 28800000, false⟩] 43200000 [] :=
  c2_idempotent zonedUTC cfgW
    [⟨"w", .FirstAwake, some 28800000, false⟩] 43200000 []
    (by intro e he; rw [List.mem_singleton] at he; subst he; simp)

end StateRegulator

